import Mathlib

set_option autoImplicit false

/-!
Shallow embedding of the user-service Repository + cache-aside layer
(`services/user-service/src/repository/user.repository.ts`), the thin
Service on top of it (`UserService`), the Primary Store semantics implied
by the Prisma calls and the migration (`prisma/migrations/.../migration.sql`,
table `users` with `UNIQUE INDEX users_email_key(email)` over ALL rows and
primary key `id`), and the cache client semantics (`config/redis.ts`:
`get`/`set`/`del` are no-ops returning miss when the client is not ready,
and swallow their own failures).

Modelling conventions:
- machine strings are Lean `String`, ids are `Nat` (Prisma generates fresh
  unique ids; modelled by a `nextId` counter), timestamps are `Nat` ticks
  passed explicitly to each mutating operation (the Date the code takes at
  that point).
- the cache maps the two key namespaces `user:id:{id}` and
  `user:email:{email}` (method `getCacheKey`); since the two namespaces can
  never collide as strings, they are modelled as two association lists.
  The serialized JSON round-trip is modelled as storing the row itself.
  The TTL argument (3600) only causes later expiry, which a sequential model
  observes as an ordinary cache miss and is therefore not tracked.
- fallible store calls return `Except`; the catch blocks of the repository are
  the corresponding `match` arms.
-/

structure User where
  id : Nat
  first_name : String
  last_name : String
  email : String
  password : String
  is_active : Bool
  created_at : Nat
  updated_at : Nat
  deleted_at : Option Nat
deriving DecidableEq, Repr

structure CreateUserRequest where
  first_name : String
  last_name : String
  email : String
  password : String
deriving DecidableEq, Repr

structure UpdateUserRequest where
  first_name : Option String
  last_name : Option String
  email : Option String
  is_active : Option Bool
deriving DecidableEq, Repr

inductive SortBy
  | first_name
  | last_name
  | email
  | created_at
  | updated_at
deriving DecidableEq, Repr

inductive SortOrder
  | asc
  | desc
deriving DecidableEq, Repr

structure UserSearchParams where
  page : Option Nat
  limit : Option Nat
  sort_by : Option SortBy
  sort_order : Option SortOrder
  q : Option String
deriving DecidableEq, Repr

inductive RepoError
  | notFound
  | conflict
  | databaseError
deriving DecidableEq, Repr

/-- Model of `bcrypt.hash(password, 12)`: an injective tagging function;
hash internals are out of scope. -/
def hashPassword (p : String) : String :=
  String.append "$2b$12$" p

/-! ## Primary Store (the `users` table behind the Prisma client) -/

structure DB where
  rows : List User
  nextId : Nat
deriving DecidableEq, Repr

def userVisibleWithId (i : Nat) (u : User) : Bool :=
  u.id == i && u.deleted_at == none

def userVisibleWithEmail (e : String) (u : User) : Bool :=
  u.email == e && u.deleted_at == none

/-- Call `user.findUnique({ where: { id, deleted_at: null } })`. -/
def dbFindById (db : DB) (i : Nat) : Option User :=
  db.rows.find? (userVisibleWithId i)

/-- Call `user.findUnique({ where: { email, deleted_at: null } })`. -/
def dbFindByEmail (db : DB) (e : String) : Option User :=
  db.rows.find? (userVisibleWithEmail e)

/-- Call `user.create`: inserts a fresh row; rejected (unique index
`users_email_key`, which covers soft-deleted rows too) when any row at all
already holds the email. -/
def dbCreate (db : DB) (data : CreateUserRequest) (hashed : String) (t : Nat) :
    Except Unit (User × DB) :=
  if db.rows.any (fun v => v.email == data.email) then
    Except.error ()
  else
    let u : User := {
      id := db.nextId
      first_name := data.first_name
      last_name := data.last_name
      email := data.email
      password := hashed
      is_active := true
      created_at := t
      updated_at := t
      deleted_at := none }
    Except.ok (u, { rows := db.rows ++ [u], nextId := db.nextId + 1 })

/-- Merge of only the provided fields; `updated_at` is refreshed by the
store client on every update (Prisma at-updatedAt). -/
def applyPatch (u : User) (d : UpdateUserRequest) (t : Nat) : User := {
  u with
  first_name := d.first_name.getD u.first_name
  last_name := d.last_name.getD u.last_name
  email := d.email.getD u.email
  is_active := d.is_active.getD u.is_active
  updated_at := t }

/-- Call `user.update({ where: { id }, data })`: fails when the row is absent or
when the patched email collides with another row (unique index over all
rows). -/
def dbUpdate (db : DB) (i : Nat) (d : UpdateUserRequest) (t : Nat) :
    Except Unit (User × DB) :=
  match db.rows.find? (fun v => v.id == i) with
  | none => Except.error ()
  | some u =>
    let u2 := applyPatch u d t
    if db.rows.any (fun v => v.id != i && v.email == u2.email) then
      Except.error ()
    else
      Except.ok (u2, { db with rows := db.rows.map (fun v => if v.id == i then u2 else v) })

/-- Call `user.update({ where: { id }, data: { deleted_at: new Date() } })`. -/
def dbSetDeleted (db : DB) (i : Nat) (t : Nat) : Except Unit DB :=
  match db.rows.find? (fun v => v.id == i) with
  | none => Except.error ()
  | some u =>
    let u2 := { u with deleted_at := some t, updated_at := t }
    Except.ok { db with rows := db.rows.map (fun v => if v.id == i then u2 else v) }

/-- Call `user.delete({ where: { id } })`. -/
def dbDelete (db : DB) (i : Nat) : Except Unit DB :=
  match db.rows.find? (fun v => v.id == i) with
  | none => Except.error ()
  | some _ => Except.ok { db with rows := db.rows.filter (fun v => v.id != i) }

/-! ## Cache Store (`config/redis.ts` client, keyed per `getCacheKey`) -/

def alookup {κ α : Type} [DecidableEq κ] : List (κ × α) → κ → Option α
  | [], _ => none
  | (k2, v) :: rest, k => if k2 = k then some v else alookup rest k

def adel {κ α : Type} [DecidableEq κ] : List (κ × α) → κ → List (κ × α)
  | [], _ => []
  | (k2, v) :: rest, k => if k2 = k then adel rest k else (k2, v) :: adel rest k

def aset {κ α : Type} [DecidableEq κ] (l : List (κ × α)) (k : κ) (v : α) : List (κ × α) :=
  (k, v) :: adel l k

structure Cache where
  byId : List (Nat × User)
  byEmail : List (String × User)
deriving DecidableEq, Repr

def Cache.empty : Cache := { byId := [], byEmail := [] }

structure RepoState where
  db : DB
  cache : Cache
  cacheReady : Bool
deriving DecidableEq, Repr

/-- Method `setCacheUser`: when the cache client is ready, write the row under both
keys (`Promise.allSettled`: both writes attempted, failures swallowed). -/
def setCacheUser (st : RepoState) (u : User) : RepoState :=
  if st.cacheReady then
    { st with cache := {
        byId := aset st.cache.byId u.id u
        byEmail := aset st.cache.byEmail u.email u } }
  else st

/-- Method `getCacheUser(identifier, id)`: miss when not ready; read failures are
caught and treated as a miss. -/
def getCacheUserById (st : RepoState) (i : Nat) : Option User :=
  if st.cacheReady then alookup st.cache.byId i else none

/-- Method `getCacheUser(identifier, email)`. -/
def getCacheUserByEmail (st : RepoState) (e : String) : Option User :=
  if st.cacheReady then alookup st.cache.byEmail e else none

/-- Method `invalidateCacheUser`: delete both keys of the given row. -/
def invalidateCacheUser (st : RepoState) (u : User) : RepoState :=
  if st.cacheReady then
    { st with cache := {
        byId := adel st.cache.byId u.id
        byEmail := adel st.cache.byEmail u.email } }
  else st

/-! ## UserRepositoryPrisma -/

namespace UserRepository

/-- Method `findById`: cache-aside read; populate both keys on a store hit. -/
def findById (st : RepoState) (i : Nat) : Except RepoError (Option User) × RepoState :=
  match getCacheUserById st i with
  | some u => (Except.ok (some u), st)
  | none =>
    match dbFindById st.db i with
    | some u => (Except.ok (some u), setCacheUser st u)
    | none => (Except.ok none, st)

/-- Method `findByEmail`: cache-aside read; populate both keys on a store hit. -/
def findByEmail (st : RepoState) (e : String) : Except RepoError (Option User) × RepoState :=
  match getCacheUserByEmail st e with
  | some u => (Except.ok (some u), st)
  | none =>
    match dbFindByEmail st.db e with
    | some u => (Except.ok (some u), setCacheUser st u)
    | none => (Except.ok none, st)

/-- Method `create`: email pre-check via `findByEmail`, then hash and insert; a
`ConflictError` is rethrown as-is, every other failure (in particular the
unique-constraint rejection of the store) is wrapped into `DatabaseError` by the
catch block. -/
def create (st : RepoState) (data : CreateUserRequest) (t : Nat) :
    Except RepoError User × RepoState :=
  let pre := findByEmail st data.email
  match pre.1 with
  | Except.ok (some _) => (Except.error RepoError.conflict, pre.2)
  | Except.ok none =>
    match dbCreate pre.2.db data (hashPassword data.password) t with
    | Except.error _ => (Except.error RepoError.databaseError, pre.2)
    | Except.ok (u, db2) => (Except.ok u, setCacheUser { pre.2 with db := db2 } u)
  | Except.error e => (Except.error e, pre.2)

/-- Method `update`: find the target (`NotFoundError` when absent), re-check email
uniqueness when the patch carries a different non-empty email
(`ConflictError` on a match), invalidate both keys of the pre-update row,
apply the store update, re-populate the cache with the refreshed row. -/
def update (st : RepoState) (i : Nat) (d : UpdateUserRequest) (t : Nat) :
    Except RepoError User × RepoState :=
  let r1 := findById st i
  match r1.1 with
  | Except.ok none => (Except.error RepoError.notFound, r1.2)
  | Except.ok (some existing) =>
    let check :
        Bool × RepoState :=
      match d.email with
      | some e =>
        if e ≠ "" ∧ e ≠ existing.email then
          let r2 := findByEmail r1.2 e
          match r2.1 with
          | Except.ok (some _) => (true, r2.2)
          | _ => (false, r2.2)
        else (false, r1.2)
      | none => (false, r1.2)
    if check.1 then (Except.error RepoError.conflict, check.2)
    else
      let st2 := invalidateCacheUser check.2 existing
      match dbUpdate st2.db i d t with
      | Except.error _ => (Except.error RepoError.databaseError, st2)
      | Except.ok (u2, db2) => (Except.ok u2, setCacheUser { st2 with db := db2 } u2)
  | Except.error e => (Except.error e, r1.2)

/-! Helpers for `findMany`: the filter the Prisma `where` clause builds, and the
`orderBy` sort. The table collation (`utf8mb4_unicode_ci`) makes the
`contains` filters case-insensitive substring matches. The TS destructuring
defaults (`page = 1, limit = 10, sort_by = created_at, sort_order = desc`)
apply when a parameter is absent; a present-but-empty `q` is falsy in TS,
so it disables the text filter. -/

def isPre : List Char → List Char → Bool
  | [], _ => true
  | _ :: _, [] => false
  | a :: as, b :: bs => a == b && isPre as bs

def hasSub (needle : List Char) : List Char → Bool
  | [] => isPre needle []
  | c :: rest => isPre needle (c :: rest) || hasSub needle rest

/-- Case-insensitive substring test (`{ contains: q }` under the
case-insensitive collation). -/
def ciContains (hay q : String) : Bool :=
  hasSub (q.data.map Char.toLower) (hay.data.map Char.toLower)

def matchesQ (q : Option String) (u : User) : Bool :=
  match q with
  | none => true
  | some s =>
    if s = "" then true
    else ciContains u.first_name s || ciContains u.last_name s || ciContains u.email s

/-- The row filter of `findMany`: never soft-deleted, and matching `q` when
a non-empty `q` is given. -/
def userListed (q : Option String) (u : User) : Bool :=
  u.deleted_at == none && matchesQ q u

def matchedRows (db : DB) (p : UserSearchParams) : List User :=
  db.rows.filter (userListed p.q)

def keyLe (sb : SortBy) (u v : User) : Bool :=
  match sb with
  | SortBy.first_name => decide (u.first_name ≤ v.first_name)
  | SortBy.last_name => decide (u.last_name ≤ v.last_name)
  | SortBy.email => decide (u.email ≤ v.email)
  | SortBy.created_at => decide (u.created_at ≤ v.created_at)
  | SortBy.updated_at => decide (u.updated_at ≤ v.updated_at)

def userLe (sb : SortBy) (so : SortOrder) (u v : User) : Bool :=
  match so with
  | SortOrder.asc => keyLe sb u v
  | SortOrder.desc => keyLe sb v u

def insertSorted {α : Type} (le : α → α → Bool) (x : α) : List α → List α
  | [] => [x]
  | y :: ys => if le x y then x :: y :: ys else y :: insertSorted le x ys

def sortByLe {α : Type} (le : α → α → Bool) : List α → List α
  | [] => []
  | x :: xs => insertSorted le x (sortByLe le xs)

def sortedMatchedRows (db : DB) (p : UserSearchParams) : List User :=
  sortByLe (userLe (p.sort_by.getD SortBy.created_at) (p.sort_order.getD SortOrder.desc))
    (matchedRows db p)

/-- Method `findMany`: `skip = (page-1)*limit`, page slice plus unpaginated count
of the same filter; the cache is not touched on this path. -/
def findMany (st : RepoState) (p : UserSearchParams) :
    Except RepoError (List User × Nat) × RepoState :=
  let page := p.page.getD 1
  let limit := p.limit.getD 10
  let skip := (page - 1) * limit
  ((Except.ok (((sortedMatchedRows st.db p).drop skip).take limit,
      (matchedRows st.db p).length), st))

/-- Method `softDelete`: find the target, invalidate both keys, stamp `deleted_at`. -/
def softDelete (st : RepoState) (i : Nat) (t : Nat) :
    Except RepoError Unit × RepoState :=
  let r1 := findById st i
  match r1.1 with
  | Except.ok none => (Except.error RepoError.notFound, r1.2)
  | Except.ok (some u) =>
    let st2 := invalidateCacheUser r1.2 u
    match dbSetDeleted st2.db i t with
    | Except.error _ => (Except.error RepoError.databaseError, st2)
    | Except.ok db2 => (Except.ok (), { st2 with db := db2 })
  | Except.error e => (Except.error e, r1.2)

/-- Method `delete` (hard): find the target, invalidate both keys, remove the row. -/
def remove (st : RepoState) (i : Nat) : Except RepoError Unit × RepoState :=
  let r1 := findById st i
  match r1.1 with
  | Except.ok none => (Except.error RepoError.notFound, r1.2)
  | Except.ok (some u) =>
    let st2 := invalidateCacheUser r1.2 u
    match dbDelete st2.db i with
    | Except.error _ => (Except.error RepoError.databaseError, st2)
    | Except.ok db2 => (Except.ok (), { st2 with db := db2 })
  | Except.error e => (Except.error e, r1.2)

end UserRepository

/-! ## UserService (thin orchestration over the repository) -/

/-- The client-facing shape (`UserResponse` in `user.types.ts`): every user
field except `password` and `deleted_at`. -/
structure UserResponse where
  id : Nat
  first_name : String
  last_name : String
  email : String
  is_active : Bool
  created_at : Nat
  updated_at : Nat
deriving DecidableEq, Repr

/-- Destructuring `const { password, deleted_at, ...userResponse } = user`. -/
def mapUserToResponse (u : User) : UserResponse := {
  id := u.id
  first_name := u.first_name
  last_name := u.last_name
  email := u.email
  is_active := u.is_active
  created_at := u.created_at
  updated_at := u.updated_at }

/-- Field values, for serializing records the way the JS object layer sees
them (a list of named fields). -/
inductive FieldVal
  | s (v : String)
  | n (v : Nat)
  | b (v : Bool)
  | o (v : Option Nat)
deriving DecidableEq, Repr

def User.toFields (u : User) : List (String × FieldVal) := [
  ("id", FieldVal.n u.id),
  ("first_name", FieldVal.s u.first_name),
  ("last_name", FieldVal.s u.last_name),
  ("email", FieldVal.s u.email),
  ("password", FieldVal.s u.password),
  ("is_active", FieldVal.b u.is_active),
  ("created_at", FieldVal.n u.created_at),
  ("updated_at", FieldVal.n u.updated_at),
  ("deleted_at", FieldVal.o u.deleted_at)]

def UserResponse.toFields (r : UserResponse) : List (String × FieldVal) := [
  ("id", FieldVal.n r.id),
  ("first_name", FieldVal.s r.first_name),
  ("last_name", FieldVal.s r.last_name),
  ("email", FieldVal.s r.email),
  ("is_active", FieldVal.b r.is_active),
  ("created_at", FieldVal.n r.created_at),
  ("updated_at", FieldVal.n r.updated_at)]

structure Pagination where
  page : Nat
  limit : Nat
  total : Nat
  total_pages : Nat
  has_next : Bool
  has_prev : Bool
deriving DecidableEq, Repr

structure PaginatedUsers where
  data : List UserResponse
  pagination : Pagination
deriving DecidableEq, Repr

/-- Computation `Math.ceil(total / limit)` for positive `limit`. -/
def ceilDiv (a b : Nat) : Nat := (a + b - 1) / b

namespace UserService

def createUser (st : RepoState) (d : CreateUserRequest) (t : Nat) :
    Except RepoError UserResponse × RepoState :=
  let r := UserRepository.create st d t
  (r.1.map mapUserToResponse, r.2)

/-- Service `getUserById` converts repository absence into `NotFoundError`. -/
def getUserById (st : RepoState) (i : Nat) :
    Except RepoError UserResponse × RepoState :=
  let r := UserRepository.findById st i
  match r.1 with
  | Except.ok none => (Except.error RepoError.notFound, r.2)
  | Except.ok (some u) => (Except.ok (mapUserToResponse u), r.2)
  | Except.error e => (Except.error e, r.2)

/-- Service `getUserByEmail` returns null rather than raising on absence. -/
def getUserByEmail (st : RepoState) (e : String) :
    Except RepoError (Option UserResponse) × RepoState :=
  let r := UserRepository.findByEmail st e
  (r.1.map (fun o => o.map mapUserToResponse), r.2)

/-- Service `getUsers`: list plus pagination metadata computed from
`(page, limit, total)`. -/
def getUsers (st : RepoState) (p : UserSearchParams) :
    Except RepoError PaginatedUsers × RepoState :=
  let page := p.page.getD 1
  let limit := p.limit.getD 10
  let r := UserRepository.findMany st p
  match r.1 with
  | Except.ok (users, total) =>
    let totalPages := ceilDiv total limit
    (Except.ok {
      data := users.map mapUserToResponse
      pagination := {
        page := page
        limit := limit
        total := total
        total_pages := totalPages
        has_next := decide (page < totalPages)
        has_prev := decide (1 < page) } }, r.2)
  | Except.error e => (Except.error e, r.2)

def updateUser (st : RepoState) (i : Nat) (d : UpdateUserRequest) (t : Nat) :
    Except RepoError UserResponse × RepoState :=
  let r := UserRepository.update st i d t
  (r.1.map mapUserToResponse, r.2)

/-- Service `activateUser` is `update(id, { is_active: true })` plus response
mapping. -/
def activateUser (st : RepoState) (i : Nat) (t : Nat) :
    Except RepoError UserResponse × RepoState :=
  let r := UserRepository.update st i
    { first_name := none, last_name := none, email := none, is_active := some true } t
  (r.1.map mapUserToResponse, r.2)

/-- Service `deactivateUser` is `update(id, { is_active: false })` plus
response mapping. -/
def deactivateUser (st : RepoState) (i : Nat) (t : Nat) :
    Except RepoError UserResponse × RepoState :=
  let r := UserRepository.update st i
    { first_name := none, last_name := none, email := none, is_active := some false } t
  (r.1.map mapUserToResponse, r.2)

/-- Service `deleteUser(id, soft)` dispatches to the soft or hard repository
delete. -/
def deleteUser (st : RepoState) (i : Nat) (soft : Bool) (t : Nat) :
    Except RepoError Unit × RepoState :=
  if soft then UserRepository.softDelete st i t else UserRepository.remove st i

end UserService

/-! ## Cache-free reference semantics

The same repository operations with every cache interaction removed: what
each call returns and how the Primary Store evolves when every cache read
is a miss and every cache write a no-op. Used to state that the cache is
only an optimization. -/

def pCreate (db : DB) (data : CreateUserRequest) (t : Nat) : Except RepoError User × DB :=
  match dbFindByEmail db data.email with
  | some _ => (Except.error RepoError.conflict, db)
  | none =>
    match dbCreate db data (hashPassword data.password) t with
    | Except.error _ => (Except.error RepoError.databaseError, db)
    | Except.ok (u, db2) => (Except.ok u, db2)

def pUpdate (db : DB) (i : Nat) (d : UpdateUserRequest) (t : Nat) :
    Except RepoError User × DB :=
  match dbFindById db i with
  | none => (Except.error RepoError.notFound, db)
  | some existing =>
    let conflict : Bool :=
      match d.email with
      | some e =>
        if e ≠ "" ∧ e ≠ existing.email then (dbFindByEmail db e).isSome else false
      | none => false
    if conflict then (Except.error RepoError.conflict, db)
    else
      match dbUpdate db i d t with
      | Except.error _ => (Except.error RepoError.databaseError, db)
      | Except.ok (u2, db2) => (Except.ok u2, db2)

def pSoftDelete (db : DB) (i : Nat) (t : Nat) : Except RepoError Unit × DB :=
  match dbFindById db i with
  | none => (Except.error RepoError.notFound, db)
  | some _ =>
    match dbSetDeleted db i t with
    | Except.error _ => (Except.error RepoError.databaseError, db)
    | Except.ok db2 => (Except.ok (), db2)

def pRemove (db : DB) (i : Nat) : Except RepoError Unit × DB :=
  match dbFindById db i with
  | none => (Except.error RepoError.notFound, db)
  | some _ =>
    match dbDelete db i with
    | Except.error _ => (Except.error RepoError.databaseError, db)
    | Except.ok db2 => (Except.ok (), db2)

def pFindMany (db : DB) (p : UserSearchParams) : Except RepoError (List User × Nat) :=
  Except.ok (((UserRepository.sortedMatchedRows db p).drop
      ((p.page.getD 1 - 1) * (p.limit.getD 10))).take (p.limit.getD 10),
    (UserRepository.matchedRows db p).length)

instance {ε α : Type} [DecidableEq ε] [DecidableEq α] : DecidableEq (Except ε α) := fun a b =>
  match a, b with
  | Except.ok x, Except.ok y =>
    if h : x = y then Decidable.isTrue (congrArg Except.ok h)
    else Decidable.isFalse (fun hc => h (Except.ok.inj hc))
  | Except.error x, Except.error y =>
    if h : x = y then Decidable.isTrue (congrArg Except.error h)
    else Decidable.isFalse (fun hc => h (Except.error.inj hc))
  | Except.ok _, Except.error _ => Decidable.isFalse (fun hc => Except.noConfusion hc)
  | Except.error _, Except.ok _ => Decidable.isFalse (fun hc => Except.noConfusion hc)

/-! ## Repository operation sequences (for the cache-availability claim) -/

inductive Op
  | createOp (data : CreateUserRequest) (t : Nat)
  | findByIdOp (i : Nat)
  | findByEmailOp (e : String)
  | findManyOp (p : UserSearchParams)
  | updateOp (i : Nat) (d : UpdateUserRequest) (t : Nat)
  | softDeleteOp (i : Nat) (t : Nat)
  | removeOp (i : Nat)
deriving DecidableEq, Repr

inductive OpResult
  | userR (r : Except RepoError User)
  | optUserR (r : Except RepoError (Option User))
  | pageR (r : Except RepoError (List User × Nat))
  | unitR (r : Except RepoError Unit)
deriving DecidableEq, Repr

def runOp (st : RepoState) : Op → OpResult × RepoState
  | Op.createOp d t =>
    let r := UserRepository.create st d t
    (OpResult.userR r.1, r.2)
  | Op.findByIdOp i =>
    let r := UserRepository.findById st i
    (OpResult.optUserR r.1, r.2)
  | Op.findByEmailOp e =>
    let r := UserRepository.findByEmail st e
    (OpResult.optUserR r.1, r.2)
  | Op.findManyOp p =>
    let r := UserRepository.findMany st p
    (OpResult.pageR r.1, r.2)
  | Op.updateOp i d t =>
    let r := UserRepository.update st i d t
    (OpResult.userR r.1, r.2)
  | Op.softDeleteOp i t =>
    let r := UserRepository.softDelete st i t
    (OpResult.unitR r.1, r.2)
  | Op.removeOp i =>
    let r := UserRepository.remove st i
    (OpResult.unitR r.1, r.2)

def runOps (st : RepoState) : List Op → List OpResult × RepoState
  | [] => ([], st)
  | op :: rest =>
    let r := runOp st op
    let rr := runOps r.2 rest
    (r.1 :: rr.1, rr.2)

/-- The cache-free result of one operation, and the Primary Store after it. -/
def pureOp (db : DB) : Op → OpResult × DB
  | Op.createOp d t =>
    let r := pCreate db d t
    (OpResult.userR r.1, r.2)
  | Op.findByIdOp i => (OpResult.optUserR (Except.ok (dbFindById db i)), db)
  | Op.findByEmailOp e => (OpResult.optUserR (Except.ok (dbFindByEmail db e)), db)
  | Op.findManyOp p => (OpResult.pageR (pFindMany db p), db)
  | Op.updateOp i d t =>
    let r := pUpdate db i d t
    (OpResult.userR r.1, r.2)
  | Op.softDeleteOp i t =>
    let r := pSoftDelete db i t
    (OpResult.unitR r.1, r.2)
  | Op.removeOp i =>
    let r := pRemove db i
    (OpResult.unitR r.1, r.2)

/-! ## Service operations (for the response-shape claim) -/

inductive SvcOp
  | createUserOp (d : CreateUserRequest) (t : Nat)
  | getUserByIdOp (i : Nat)
  | getUserByEmailOp (e : String)
  | getUsersOp (p : UserSearchParams)
  | updateUserOp (i : Nat) (d : UpdateUserRequest) (t : Nat)
  | activateUserOp (i : Nat) (t : Nat)
  | deactivateUserOp (i : Nat) (t : Nat)
deriving DecidableEq, Repr

inductive SvcResult
  | oneUser (r : Except RepoError UserResponse)
  | maybeUser (r : Except RepoError (Option UserResponse))
  | pageUsers (r : Except RepoError PaginatedUsers)
deriving DecidableEq, Repr

def runSvcOp (st : RepoState) : SvcOp → SvcResult × RepoState
  | SvcOp.createUserOp d t =>
    let r := UserService.createUser st d t
    (SvcResult.oneUser r.1, r.2)
  | SvcOp.getUserByIdOp i =>
    let r := UserService.getUserById st i
    (SvcResult.oneUser r.1, r.2)
  | SvcOp.getUserByEmailOp e =>
    let r := UserService.getUserByEmail st e
    (SvcResult.maybeUser r.1, r.2)
  | SvcOp.getUsersOp p =>
    let r := UserService.getUsers st p
    (SvcResult.pageUsers r.1, r.2)
  | SvcOp.updateUserOp i d t =>
    let r := UserService.updateUser st i d t
    (SvcResult.oneUser r.1, r.2)
  | SvcOp.activateUserOp i t =>
    let r := UserService.activateUser st i t
    (SvcResult.oneUser r.1, r.2)
  | SvcOp.deactivateUserOp i t =>
    let r := UserService.deactivateUser st i t
    (SvcResult.oneUser r.1, r.2)

/-- Every user representation a Service call hands back to its caller. -/
def SvcResult.userReps : SvcResult → List UserResponse
  | SvcResult.oneUser (Except.ok r) => [r]
  | SvcResult.oneUser (Except.error _) => []
  | SvcResult.maybeUser (Except.ok (some r)) => [r]
  | SvcResult.maybeUser (Except.ok none) => []
  | SvcResult.maybeUser (Except.error _) => []
  | SvcResult.pageUsers (Except.ok p) => p.data
  | SvcResult.pageUsers (Except.error _) => []

/-! ## Invariants -/

/-- Well-formedness the Primary Store guarantees: the primary key makes ids
pairwise distinct, the unique index makes emails pairwise distinct (over all
rows, soft-deleted ones included), and generated ids stay below the
generator counter. -/
def WF (db : DB) : Prop :=
  db.rows.Pairwise (fun u v => u.id ≠ v.id ∧ u.email ≠ v.email) ∧
  ∀ u ∈ db.rows, u.id < db.nextId

/-- Cache coherence: every cached entry is exactly the current non-deleted
row under that identifier. Holds for the empty cache and is preserved by
every repository operation. -/
def CacheOk (c : Cache) (db : DB) : Prop :=
  (∀ i u, alookup c.byId i = some u → dbFindById db i = some u) ∧
  (∀ e u, alookup c.byEmail e = some u → dbFindByEmail db e = some u)

/-- The invariant carried across repository operations: the store is
well-formed and, whenever the cache client is ready (so that cached entries
can actually be served), the cache is coherent. -/
def RepoInv (st : RepoState) : Prop :=
  WF st.db ∧ (st.cacheReady = true → CacheOk st.cache st.db)

/-! ## Concrete fixtures used by witnesses and counterexamples -/

def uA : User := {
  id := 0
  first_name := "Ada"
  last_name := "Lovelace"
  email := "ada@x.io"
  password := "$2b$12$adahash"
  is_active := true
  created_at := 0
  updated_at := 0
  deleted_at := none }

/-- A soft-deleted row that still owns its email. -/
def uGone : User := {
  id := 1
  first_name := "Gus"
  last_name := "Gone"
  email := "gone@x.io"
  password := "$2b$12$gonehash"
  is_active := false
  created_at := 0
  updated_at := 3
  deleted_at := some 3 }

def uBob : User := {
  id := 2
  first_name := "Bob"
  last_name := "Berg"
  email := "bob@x.io"
  password := "$2b$12$bobhash"
  is_active := true
  created_at := 1
  updated_at := 1
  deleted_at := none }

def stA : RepoState :=
  { db := { rows := [uA], nextId := 1 }, cache := Cache.empty, cacheReady := true }

def stGone : RepoState :=
  { db := { rows := [uGone], nextId := 2 }, cache := Cache.empty, cacheReady := true }

def stMix : RepoState :=
  { db := { rows := [uA, uGone, uBob], nextId := 3 }, cache := Cache.empty, cacheReady := true }

def reqGone : CreateUserRequest := {
  first_name := "New"
  last_name := "Owner"
  email := "gone@x.io"
  password := "Secret12" }

def reqAda : CreateUserRequest := {
  first_name := "Other"
  last_name := "Person"
  email := "ada@x.io"
  password := "Secret34" }

def patchEmail : UpdateUserRequest := {
  first_name := none
  last_name := none
  email := some "ada2@x.io"
  is_active := none }

def mkU (n : Nat) : User := {
  id := n
  first_name := "fn"
  last_name := "ln"
  email := String.append "u" (Nat.repr n)
  password := "$2b$12$h"
  is_active := true
  created_at := n
  updated_at := n
  deleted_at := none }

def st12 : RepoState :=
  { db := { rows := (List.range 12).map mkU, nextId := 12 },
    cache := Cache.empty, cacheReady := true }

def p25 : UserSearchParams := {
  page := some 2
  limit := some 5
  sort_by := some SortBy.created_at
  sort_order := some SortOrder.asc
  q := none }

def pQ : UserSearchParams := {
  page := some 1
  limit := some 10
  sort_by := some SortBy.created_at
  sort_order := some SortOrder.desc
  q := some "ada" }

/-- The patch `activateUser` passes to `update`. -/
def activePatch : UpdateUserRequest := {
  first_name := none
  last_name := none
  email := none
  is_active := some true }

/-- The patch `deactivateUser` passes to `update`. -/
def deactivePatch : UpdateUserRequest := {
  first_name := none
  last_name := none
  email := none
  is_active := some false }

def opsDemo : List Op := [
  Op.createOp reqGone 1,
  Op.findByIdOp 0,
  Op.findByEmailOp "ada@x.io",
  Op.updateOp 0 patchEmail 2,
  Op.findManyOp p25,
  Op.softDeleteOp 0 3,
  Op.findByIdOp 0,
  Op.removeOp 2]

/-! ## Helper lemmas: association lists -/

theorem alookup_adel_self {κ α : Type} [DecidableEq κ] (l : List (κ × α)) (k : κ) :
    alookup (adel l k) k = none := by
  induction l with
  | nil => rfl
  | cons h rest ih =>
    obtain ⟨k2, v⟩ := h
    by_cases hk : k2 = k
    · simpa [adel, hk] using ih
    · simpa [adel, alookup, hk] using ih

theorem alookup_adel_ne {κ α : Type} [DecidableEq κ] (l : List (κ × α)) (k k2 : κ)
    (h : k2 ≠ k) : alookup (adel l k) k2 = alookup l k2 := by
  induction l with
  | nil => rfl
  | cons hd rest ih =>
    obtain ⟨k3, v⟩ := hd
    have hne : k ≠ k2 := fun hc => h hc.symm
    by_cases hk : k3 = k
    · have : k3 ≠ k2 := by
        intro hc
        exact h (hc ▸ hk)
      simp [adel, hk, alookup, this, ih, hne]
    · by_cases hk2 : k3 = k2
      · simp [adel, hk, alookup, hk2, h]
      · simp [adel, hk, alookup, hk2, ih]

theorem alookup_aset_self {κ α : Type} [DecidableEq κ] (l : List (κ × α)) (k : κ) (v : α) :
    alookup (aset l k v) k = some v := by
  simp [aset, alookup]

theorem alookup_aset_ne {κ α : Type} [DecidableEq κ] (l : List (κ × α)) (k k2 : κ) (v : α)
    (h : k2 ≠ k) : alookup (aset l k v) k2 = alookup l k2 := by
  have : k ≠ k2 := fun hc => h hc.symm
  simp [aset, alookup, this, alookup_adel_ne l k k2 h]

/-! ## Helper lemmas: `find?` over row lists -/

theorem findq_append_some {α : Type} (p : α → Bool) (l1 l2 : List α) (a : α)
    (h : l1.find? p = some a) : (l1 ++ l2).find? p = some a := by
  induction l1 with
  | nil => simp [List.find?] at h
  | cons x rest ih =>
    by_cases hx : p x
    · simp_all [List.find?_cons_of_pos]
    · rw [List.find?_cons_of_neg _ hx] at h
      simpa [List.find?_cons_of_neg _ hx] using ih h

theorem findq_append_none {α : Type} (p : α → Bool) (l1 l2 : List α)
    (h : l1.find? p = none) : (l1 ++ l2).find? p = l2.find? p := by
  induction l1 with
  | nil => simp
  | cons x rest ih =>
    by_cases hx : p x
    · simp [List.find?_cons_of_pos _ hx] at h
    · rw [List.find?_cons_of_neg _ hx] at h
      simpa [List.find?_cons_of_neg _ hx] using ih h

theorem findq_map_congr {α : Type} (p : α → Bool) (f : α → α) (l : List α)
    (h1 : ∀ w ∈ l, p (f w) = p w) (h2 : ∀ w ∈ l, p w = true → f w = w) :
    (l.map f).find? p = l.find? p := by
  induction l with
  | nil => rfl
  | cons x rest ih =>
    have hx1 : p (f x) = p x := h1 x (List.mem_cons_self x rest)
    by_cases hx : p x
    · have hfx : p (f x) = true := by rw [hx1]; exact hx
      have hfx2 : f x = x := h2 x (List.mem_cons_self x rest) hx
      rw [List.map_cons, List.find?_cons_of_pos _ hfx, List.find?_cons_of_pos _ hx, hfx2]
    · have hfx : ¬ p (f x) = true := by rw [hx1]; exact hx
      rw [List.map_cons, List.find?_cons_of_neg _ hfx, List.find?_cons_of_neg _ hx]
      exact ih (fun w hw => h1 w (List.mem_cons_of_mem x hw))
        (fun w hw => h2 w (List.mem_cons_of_mem x hw))

theorem findq_filter_some {α : Type} (p q : α → Bool) (l : List α) (a : α)
    (hpq : ∀ w ∈ l, p w = true → q w = true) (h : l.find? p = some a) :
    (l.filter q).find? p = some a := by
  induction l with
  | nil => simp [List.find?] at h
  | cons x rest ih =>
    by_cases hx : p x
    · rw [List.find?_cons_of_pos _ hx] at h
      have hq : q x = true := hpq x (List.mem_cons_self x rest) hx
      simp [List.filter_cons, hq, List.find?_cons_of_pos _ hx, h]
    · rw [List.find?_cons_of_neg _ hx] at h
      have ihr := ih (fun w hw => hpq w (List.mem_cons_of_mem x hw)) h
      by_cases hq : q x
      · simpa [List.filter_cons, hq, List.find?_cons_of_neg _ hx] using ihr
      · simpa [List.filter_cons, hq] using ihr

/-! ## Helper lemmas: sorting -/

theorem mem_insertSorted {α : Type} (le : α → α → Bool) (x y : α) (l : List α) :
    y ∈ UserRepository.insertSorted le x l ↔ y = x ∨ y ∈ l := by
  induction l with
  | nil => simp [UserRepository.insertSorted]
  | cons z rest ih =>
    by_cases hle : le x z
    · simp [UserRepository.insertSorted, hle]
    · simp [UserRepository.insertSorted, hle, ih]
      tauto

theorem mem_sortByLe {α : Type} (le : α → α → Bool) (y : α) (l : List α) :
    y ∈ UserRepository.sortByLe le l ↔ y ∈ l := by
  induction l with
  | nil => simp [UserRepository.sortByLe]
  | cons z rest ih =>
    simp [UserRepository.sortByLe, mem_insertSorted, ih]

theorem length_insertSorted {α : Type} (le : α → α → Bool) (x : α) (l : List α) :
    (UserRepository.insertSorted le x l).length = l.length + 1 := by
  induction l with
  | nil => rfl
  | cons z rest ih =>
    by_cases hle : le x z
    · simp [UserRepository.insertSorted, hle]
    · simp [UserRepository.insertSorted, hle, ih]

theorem length_sortByLe {α : Type} (le : α → α → Bool) (l : List α) :
    (UserRepository.sortByLe le l).length = l.length := by
  induction l with
  | nil => rfl
  | cons z rest ih =>
    simp [UserRepository.sortByLe, length_insertSorted, ih]

/-! ## Helper lemmas: well-formed store and its lookups -/

theorem wf_distinct {db : DB} (hwf : WF db) {a b : User}
    (ha : a ∈ db.rows) (hb : b ∈ db.rows) (hne : a ≠ b) :
    a.id ≠ b.id ∧ a.email ≠ b.email := by
  have hsym : Symmetric (fun u v : User => u.id ≠ v.id ∧ u.email ≠ v.email) := by
    intro u v hv
    exact ⟨fun hc => hv.1 hc.symm, fun hc => hv.2 hc.symm⟩
  exact hwf.1.forall hsym ha hb hne

theorem dbFindById_some {db : DB} {i : Nat} {u : User}
    (h : dbFindById db i = some u) :
    u ∈ db.rows ∧ u.id = i ∧ u.deleted_at = none := by
  have hmem := List.mem_of_find?_eq_some h
  have hp := List.find?_some h
  simp [userVisibleWithId] at hp
  exact ⟨hmem, hp.1, hp.2⟩

theorem dbFindByEmail_some {db : DB} {e : String} {u : User}
    (h : dbFindByEmail db e = some u) :
    u ∈ db.rows ∧ u.email = e ∧ u.deleted_at = none := by
  have hmem := List.mem_of_find?_eq_some h
  have hp := List.find?_some h
  simp [userVisibleWithEmail] at hp
  exact ⟨hmem, hp.1, hp.2⟩

theorem findVisibleId_of_mem {u : User} (hdel : u.deleted_at = none) :
    ∀ l : List User, l.Pairwise (fun a b => a.id ≠ b.id ∧ a.email ≠ b.email) → u ∈ l →
      l.find? (userVisibleWithId u.id) = some u := by
  intro l
  induction l with
  | nil =>
    intro _ hmem
    simp at hmem
  | cons w rest ih =>
    intro hpw hmem
    rcases List.mem_cons.mp hmem with hw | hw
    · subst hw
      simp [List.find?_cons_of_pos, userVisibleWithId, hdel]
    · have hwne : w.id ≠ u.id := ((List.pairwise_cons.mp hpw).1 u hw).1
      have hvw : ¬ userVisibleWithId u.id w = true := by
        simp [userVisibleWithId]
        intro hc
        exact absurd hc hwne
      rw [List.find?_cons_of_neg _ hvw]
      exact ih (List.pairwise_cons.mp hpw).2 hw

theorem findVisibleEmail_of_mem {u : User} (hdel : u.deleted_at = none) :
    ∀ l : List User, l.Pairwise (fun a b => a.id ≠ b.id ∧ a.email ≠ b.email) → u ∈ l →
      l.find? (userVisibleWithEmail u.email) = some u := by
  intro l
  induction l with
  | nil =>
    intro _ hmem
    simp at hmem
  | cons w rest ih =>
    intro hpw hmem
    rcases List.mem_cons.mp hmem with hw | hw
    · subst hw
      simp [List.find?_cons_of_pos, userVisibleWithEmail, hdel]
    · have hwne : w.email ≠ u.email := ((List.pairwise_cons.mp hpw).1 u hw).2
      have hvw : ¬ userVisibleWithEmail u.email w = true := by
        simp [userVisibleWithEmail]
        intro hc
        exact absurd hc hwne
      rw [List.find?_cons_of_neg _ hvw]
      exact ih (List.pairwise_cons.mp hpw).2 hw

theorem dbFindById_of_mem {db : DB} (hwf : WF db) {u : User}
    (hmem : u ∈ db.rows) (hdel : u.deleted_at = none) :
    dbFindById db u.id = some u :=
  findVisibleId_of_mem hdel db.rows hwf.1 hmem

theorem dbFindByEmail_of_mem {db : DB} (hwf : WF db) {u : User}
    (hmem : u ∈ db.rows) (hdel : u.deleted_at = none) :
    dbFindByEmail db u.email = some u :=
  findVisibleEmail_of_mem hdel db.rows hwf.1 hmem

theorem findRowId_of_mem {u : User} :
    ∀ l : List User, l.Pairwise (fun a b => a.id ≠ b.id ∧ a.email ≠ b.email) → u ∈ l →
      l.find? (fun v => v.id == u.id) = some u := by
  intro l
  induction l with
  | nil =>
    intro _ hmem
    simp at hmem
  | cons w rest ih =>
    intro hpw hmem
    rcases List.mem_cons.mp hmem with hw | hw
    · subst hw
      simp [List.find?_cons_of_pos]
    · have hwne : w.id ≠ u.id := ((List.pairwise_cons.mp hpw).1 u hw).1
      rw [List.find?_cons_of_neg _ (by simp [hwne])]
      exact ih (List.pairwise_cons.mp hpw).2 hw

theorem rowById_of_findById {db : DB} (hwf : WF db) {i : Nat} {u : User}
    (h : dbFindById db i = some u) :
    db.rows.find? (fun v => v.id == i) = some u := by
  obtain ⟨hmem, hid, _⟩ := dbFindById_some h
  have := findRowId_of_mem db.rows hwf.1 hmem
  rwa [hid] at this

theorem findq_filter_congr {α : Type} (p q : α → Bool) (l : List α)
    (hpq : ∀ w ∈ l, p w = true → q w = true) :
    (l.filter q).find? p = l.find? p := by
  cases hl : l.find? p with
  | some v => exact findq_filter_some p q l v hpq hl
  | none =>
    apply List.find?_eq_none.mpr
    intro x hx
    exact List.find?_eq_none.mp hl x (List.mem_of_mem_filter hx)

theorem eq_of_same_id {db : DB} (hwf : WF db) {a w : User}
    (ha : a ∈ db.rows) (hw : w ∈ db.rows) (hid : w.id = a.id) : w = a := by
  by_contra hne
  exact (wf_distinct hwf hw ha hne).1 hid

/-! ## Helper lemmas: store mutations -/

theorem dbCreate_ok {db : DB} {data : CreateUserRequest} {hashed : String} {t : Nat}
    {u : User} {db2 : DB} (hwf : WF db)
    (h : dbCreate db data hashed t = Except.ok (u, db2)) :
    db2.rows = db.rows ++ [u] ∧
    u.id = db.nextId ∧ u.email = data.email ∧ u.deleted_at = none ∧
    WF db2 ∧
    dbFindById db2 u.id = some u ∧
    dbFindByEmail db2 u.email = some u ∧
    (∀ j v, dbFindById db j = some v → dbFindById db2 j = some v) ∧
    (∀ e v, dbFindByEmail db e = some v → dbFindByEmail db2 e = some v) := by
  unfold dbCreate at h
  by_cases hany : db.rows.any (fun v => v.email == data.email)
  · rw [if_pos hany] at h
    exact absurd h (by simp)
  · rw [if_neg hany] at h
    have hnew := Except.ok.inj h
    have hu : u = {
        id := db.nextId, first_name := data.first_name, last_name := data.last_name,
        email := data.email, password := hashed, is_active := true,
        created_at := t, updated_at := t, deleted_at := none } :=
      (Prod.mk.injEq _ _ _ _ ▸ hnew).1.symm
    have hdb2 : db2 = { rows := db.rows ++ [u], nextId := db.nextId + 1 } := by
      have := (Prod.mk.injEq _ _ _ _ ▸ hnew).2.symm
      rw [this, hu]
    have hnoem : ∀ v ∈ db.rows, v.email ≠ data.email := by
      intro v hv hc
      exact hany (List.any_eq_true.mpr ⟨v, hv, by simp [hc]⟩)
    have huid : u.id = db.nextId := by rw [hu]
    have huem : u.email = data.email := by rw [hu]
    have hudel : u.deleted_at = none := by rw [hu]
    have hrows : db2.rows = db.rows ++ [u] := by rw [hdb2]
    have hwf2 : WF db2 := by
      constructor
      · rw [hrows]
        apply List.pairwise_append.mpr
        refine ⟨hwf.1, List.pairwise_singleton _ _, ?_⟩
        intro a ha b hb
        have hb2 : b = u := List.mem_singleton.mp hb
        subst hb2
        constructor
        · rw [huid]
          exact Nat.ne_of_lt (hwf.2 a ha)
        · rw [huem]
          exact hnoem a ha
      · intro w hw
        rw [hrows] at hw
        rcases List.mem_append.mp hw with hw2 | hw2
        · have := hwf.2 w hw2
          rw [hdb2]
          show w.id < db.nextId + 1
          omega
        · have hwu : w = u := List.mem_singleton.mp hw2
          subst hwu
          rw [hdb2]
          show w.id < db.nextId + 1
          rw [huid]
          omega
    have hfrontId : db.rows.find? (userVisibleWithId u.id) = none := by
      apply List.find?_eq_none.mpr
      intro a ha
      simp [userVisibleWithId]
      intro hc
      rw [huid] at hc
      exact absurd hc (Nat.ne_of_lt (hwf.2 a ha))
    have hfrontEm : db.rows.find? (userVisibleWithEmail u.email) = none := by
      apply List.find?_eq_none.mpr
      intro a ha
      simp [userVisibleWithEmail]
      intro hc
      rw [huem] at hc
      exact absurd hc (hnoem a ha)
    refine ⟨hrows, huid, huem, hudel, hwf2, ?_, ?_, ?_, ?_⟩
    · show dbFindById db2 u.id = some u
      unfold dbFindById
      rw [hrows, findq_append_none _ _ _ hfrontId]
      simp [List.find?, userVisibleWithId, hudel]
    · show dbFindByEmail db2 u.email = some u
      unfold dbFindByEmail
      rw [hrows, findq_append_none _ _ _ hfrontEm]
      simp [List.find?, userVisibleWithEmail, hudel]
    · intro j v hv
      unfold dbFindById at hv ⊢
      rw [hrows]
      exact findq_append_some _ _ _ _ hv
    · intro e v hv
      unfold dbFindByEmail at hv ⊢
      rw [hrows]
      exact findq_append_some _ _ _ _ hv

theorem dbUpdate_ok {db : DB} {i : Nat} {d : UpdateUserRequest} {t : Nat}
    {existing u2 : User} {db2 : DB} (hwf : WF db)
    (hfind : dbFindById db i = some existing)
    (h : dbUpdate db i d t = Except.ok (u2, db2)) :
    u2 = applyPatch existing d t ∧
    db2.rows = db.rows.map (fun v => if v.id == i then u2 else v) ∧
    db2.nextId = db.nextId ∧
    (∀ v ∈ db.rows, v.id ≠ i → v.email ≠ u2.email) ∧
    WF db2 ∧
    u2.id = i ∧ u2.deleted_at = none ∧
    dbFindById db2 i = some u2 ∧
    dbFindByEmail db2 u2.email = some u2 ∧
    (∀ j, j ≠ i → dbFindById db2 j = dbFindById db j) ∧
    (∀ e, e ≠ existing.email → e ≠ u2.email → dbFindByEmail db2 e = dbFindByEmail db e) ∧
    (u2.email ≠ existing.email → dbFindByEmail db2 existing.email = none) := by
  have hrow := rowById_of_findById hwf hfind
  obtain ⟨hmemE, hidE, hdelE⟩ := dbFindById_some hfind
  by_cases hany : db.rows.any
      (fun v => v.id != i && v.email == (applyPatch existing d t).email)
  · exfalso
    simp [dbUpdate, hrow, hany] at h
  · simp [dbUpdate, hrow, hany] at h
    have hu2 : u2 = applyPatch existing d t := h.1.symm
    have hrows : db2.rows = db.rows.map (fun v => if v.id == i then u2 else v) := by
      rw [← h.2, hu2]
      simp
    have hnext : db2.nextId = db.nextId := by rw [← h.2]
    have hu2id : u2.id = i := by rw [hu2, applyPatch, hidE]
    have hu2del : u2.deleted_at = none := by rw [hu2, applyPatch]; exact hdelE
    have hnoany : ∀ v ∈ db.rows, v.id ≠ i → v.email ≠ u2.email := by
      intro v hv hvne hc
      apply hany
      apply List.any_eq_true.mpr
      refine ⟨v, hv, ?_⟩
      rw [← hu2]
      simp [hvne, hc]
    have hEid : ∀ v, v ∈ db.rows → v.id = i → v = existing := by
      intro v hv hvi
      exact eq_of_same_id hwf hmemE hv (by rw [hvi, hidE])
    have hwf2 : WF db2 := by
      constructor
      · rw [hrows]
        apply List.pairwise_map.mpr
        apply hwf.1.imp_of_mem
        intro a b ha hb hr
        by_cases hai : a.id = i
        · have haE : a = existing := hEid a ha hai
          by_cases hbi : b.id = i
          · exact absurd (hai.trans hbi.symm) hr.1
          · have h1 : (if (a.id == i) = true then u2 else a) = u2 := by simp [hai]
            have h2 : (if (b.id == i) = true then u2 else b) = b := by simp [hbi]
            rw [h1, h2]
            constructor
            · rw [hu2id]
              exact fun hc => hbi hc.symm
            · exact fun hc => hnoany b hb hbi hc.symm
        · have h1 : (if (a.id == i) = true then u2 else a) = a := by simp [hai]
          by_cases hbi : b.id = i
          · have h2 : (if (b.id == i) = true then u2 else b) = u2 := by simp [hbi]
            rw [h1, h2]
            constructor
            · rw [hu2id]
              exact hai
            · exact hnoany a ha hai
          · have h2 : (if (b.id == i) = true then u2 else b) = b := by simp [hbi]
            rw [h1, h2]
            exact hr
      · intro w hw
        rw [hrows] at hw
        obtain ⟨v, hv, hfv⟩ := List.mem_map.mp hw
        rw [hnext]
        by_cases hvi : v.id = i
        · have : w = u2 := by rw [← hfv]; simp [hvi]
          rw [this, hu2id, ← hidE]
          exact hwf.2 existing hmemE
        · have : w = v := by rw [← hfv]; simp [hvi]
          rw [this]
          exact hwf.2 v hv
    have hmemU2 : u2 ∈ db2.rows := by
      rw [hrows]
      apply List.mem_map.mpr
      exact ⟨existing, hmemE, by simp [hidE]⟩
    have hfind2 : dbFindById db2 i = some u2 := by
      have := dbFindById_of_mem hwf2 hmemU2 hu2del
      rwa [hu2id] at this
    have hfindem2 : dbFindByEmail db2 u2.email = some u2 :=
      dbFindByEmail_of_mem hwf2 hmemU2 hu2del
    refine ⟨hu2, hrows, hnext, hnoany, hwf2, hu2id, hu2del, hfind2, hfindem2, ?_, ?_, ?_⟩
    · intro j hj
      unfold dbFindById
      rw [hrows]
      apply findq_map_congr
      · intro w hw
        by_cases hwi : w.id = i
        · have hwE : w = existing := hEid w hw hwi
          have h1 : (if (w.id == i) = true then u2 else w) = u2 := by simp [hwi]
          rw [h1]
          have hp1 : userVisibleWithId j u2 = false := by
            simp [userVisibleWithId]
            intro hc
            have hji : j = i := by rw [← hc, hu2id]
            exact absurd hji hj
          have hp2 : userVisibleWithId j w = false := by
            simp [userVisibleWithId]
            intro hc
            rw [hwi] at hc
            exact absurd hc.symm hj
          rw [hp1, hp2]
        · have h1 : (if (w.id == i) = true then u2 else w) = w := by simp [hwi]
          rw [h1]
      · intro w hw hp
        have : w.id = j := by
          simp [userVisibleWithId] at hp
          exact hp.1
        have hwi : w.id ≠ i := by rw [this]; exact hj
        simp [hwi]
    · intro e he hu2e
      unfold dbFindByEmail
      rw [hrows]
      apply findq_map_congr
      · intro w hw
        by_cases hwi : w.id = i
        · have hwE : w = existing := hEid w hw hwi
          have h1 : (if (w.id == i) = true then u2 else w) = u2 := by simp [hwi]
          rw [h1]
          have hp1 : userVisibleWithEmail e u2 = false := by
            simp [userVisibleWithEmail]
            intro hc
            exact absurd hc (fun hc2 => hu2e hc2.symm)
          have hp2 : userVisibleWithEmail e w = false := by
            simp [userVisibleWithEmail]
            intro hc
            rw [hwE] at hc
            exact absurd hc (fun hc2 => he hc2.symm)
          rw [hp1, hp2]
        · have h1 : (if (w.id == i) = true then u2 else w) = w := by simp [hwi]
          rw [h1]
      · intro w hw hp
        have hwe : w.email = e := by
          simp [userVisibleWithEmail] at hp
          exact hp.1
        have hwi : w.id ≠ i := by
          intro hc
          have := hEid w hw hc
          rw [this] at hwe
          exact he hwe.symm
        simp [hwi]
    · intro hne
      unfold dbFindByEmail
      apply List.find?_eq_none.mpr
      intro w hw
      rw [hrows] at hw
      obtain ⟨v, hv, hfv⟩ := List.mem_map.mp hw
      by_cases hvi : v.id = i
      · have : w = u2 := by rw [← hfv]; simp [hvi]
        rw [this]
        simp [userVisibleWithEmail]
        intro hc
        exact absurd hc hne
      · have hwv : w = v := by rw [← hfv]; simp [hvi]
        have hvne : v ≠ existing := by
          intro hc
          rw [hc] at hvi
          exact hvi hidE
        have := (wf_distinct hwf hv hmemE hvne).2
        rw [hwv]
        simp [userVisibleWithEmail]
        intro hc
        exact absurd hc this

theorem dbSetDeleted_ok {db : DB} {i : Nat} {t : Nat} {existing : User} {db2 : DB}
    (hwf : WF db) (hfind : dbFindById db i = some existing)
    (h : dbSetDeleted db i t = Except.ok db2) :
    db2.rows = db.rows.map
      (fun v => if v.id == i then { existing with deleted_at := some t, updated_at := t } else v) ∧
    db2.nextId = db.nextId ∧
    WF db2 ∧
    dbFindById db2 i = none ∧
    dbFindByEmail db2 existing.email = none ∧
    (∀ j, j ≠ i → dbFindById db2 j = dbFindById db j) ∧
    (∀ e, e ≠ existing.email → dbFindByEmail db2 e = dbFindByEmail db e) ∧
    (∃ w ∈ db2.rows, w.id = i ∧ w.deleted_at = some t) := by
  have hrow := rowById_of_findById hwf hfind
  obtain ⟨hmemE, hidE, hdelE⟩ := dbFindById_some hfind
  simp [dbSetDeleted, hrow] at h
  have hrows : db2.rows = db.rows.map
      (fun v => if v.id == i then { existing with deleted_at := some t, updated_at := t } else v) := by
    rw [← h]
    simp
  have hnext : db2.nextId = db.nextId := by rw [← h]
  have hEid : ∀ v, v ∈ db.rows → v.id = i → v = existing := by
    intro v hv hvi
    exact eq_of_same_id hwf hmemE hv (by rw [hvi, hidE])
  have hwf2 : WF db2 := by
    constructor
    · rw [hrows]
      apply List.pairwise_map.mpr
      apply hwf.1.imp_of_mem
      intro a b ha hb hr
      by_cases hai : a.id = i
      · by_cases hbi : b.id = i
        · exact absurd (hai.trans hbi.symm) hr.1
        · have h1 : (if (a.id == i) = true
              then { existing with deleted_at := some t, updated_at := t } else a) =
              { existing with deleted_at := some t, updated_at := t } := by simp [hai]
          have h2 : (if (b.id == i) = true
              then { existing with deleted_at := some t, updated_at := t } else b) = b := by
            simp [hbi]
          rw [h1, h2]
          have haE : a = existing := hEid a ha hai
          rw [haE] at hr
          exact hr
      · by_cases hbi : b.id = i
        · have h1 : (if (a.id == i) = true
              then { existing with deleted_at := some t, updated_at := t } else a) = a := by
            simp [hai]
          have h2 : (if (b.id == i) = true
              then { existing with deleted_at := some t, updated_at := t } else b) =
              { existing with deleted_at := some t, updated_at := t } := by simp [hbi]
          rw [h1, h2]
          have hbE : b = existing := hEid b hb hbi
          rw [hbE] at hr
          exact hr
        · have h1 : (if (a.id == i) = true
              then { existing with deleted_at := some t, updated_at := t } else a) = a := by
            simp [hai]
          have h2 : (if (b.id == i) = true
              then { existing with deleted_at := some t, updated_at := t } else b) = b := by
            simp [hbi]
          rw [h1, h2]
          exact hr
    · intro w hw
      rw [hrows] at hw
      obtain ⟨v, hv, hfv⟩ := List.mem_map.mp hw
      rw [hnext]
      by_cases hvi : v.id = i
      · have : w = { existing with deleted_at := some t, updated_at := t } := by
          rw [← hfv]
          simp [hvi]
        rw [this]
        show existing.id < db.nextId
        exact hwf.2 existing hmemE
      · have : w = v := by
          rw [← hfv]
          simp [hvi]
        rw [this]
        exact hwf.2 v hv
  have hnone_id : dbFindById db2 i = none := by
    unfold dbFindById
    apply List.find?_eq_none.mpr
    intro w hw
    rw [hrows] at hw
    obtain ⟨v, hv, hfv⟩ := List.mem_map.mp hw
    by_cases hvi : v.id = i
    · have : w = { existing with deleted_at := some t, updated_at := t } := by
        rw [← hfv]
        simp [hvi]
      rw [this]
      simp [userVisibleWithId]
    · have : w = v := by
        rw [← hfv]
        simp [hvi]
      rw [this]
      simp [userVisibleWithId]
      intro hc
      exact absurd hc hvi
  have hnone_em : dbFindByEmail db2 existing.email = none := by
    unfold dbFindByEmail
    apply List.find?_eq_none.mpr
    intro w hw
    rw [hrows] at hw
    obtain ⟨v, hv, hfv⟩ := List.mem_map.mp hw
    by_cases hvi : v.id = i
    · have : w = { existing with deleted_at := some t, updated_at := t } := by
        rw [← hfv]
        simp [hvi]
      rw [this]
      simp [userVisibleWithEmail]
    · have hwv : w = v := by
        rw [← hfv]
        simp [hvi]
      have hvne : v ≠ existing := by
        intro hc
        rw [hc] at hvi
        exact hvi hidE
      rw [hwv]
      simp [userVisibleWithEmail]
      intro hc
      exact absurd hc (wf_distinct hwf hv hmemE hvne).2
  refine ⟨hrows, hnext, hwf2, hnone_id, hnone_em, ?_, ?_, ?_⟩
  · intro j hj
    unfold dbFindById
    rw [hrows]
    apply findq_map_congr
    · intro w hw
      by_cases hwi : w.id = i
      · have h1 : (if (w.id == i) = true
            then { existing with deleted_at := some t, updated_at := t } else w) =
            { existing with deleted_at := some t, updated_at := t } := by simp [hwi]
        rw [h1]
        have hwE : w = existing := hEid w hw hwi
        have hp1 : userVisibleWithId j { existing with deleted_at := some t, updated_at := t }
            = false := by
          simp [userVisibleWithId]
        have hp2 : userVisibleWithId j w = false := by
          simp [userVisibleWithId]
          intro hc
          rw [hwi] at hc
          exact absurd hc.symm hj
        rw [hp1, hp2]
      · have h1 : (if (w.id == i) = true
            then { existing with deleted_at := some t, updated_at := t } else w) = w := by
          simp [hwi]
        rw [h1]
    · intro w hw hp
      have : w.id = j := by
        simp [userVisibleWithId] at hp
        exact hp.1
      have hwi : w.id ≠ i := by
        rw [this]
        exact hj
      simp [hwi]
  · intro e he
    unfold dbFindByEmail
    rw [hrows]
    apply findq_map_congr
    · intro w hw
      by_cases hwi : w.id = i
      · have h1 : (if (w.id == i) = true
            then { existing with deleted_at := some t, updated_at := t } else w) =
            { existing with deleted_at := some t, updated_at := t } := by simp [hwi]
        rw [h1]
        have hwE : w = existing := hEid w hw hwi
        have hp1 : userVisibleWithEmail e { existing with deleted_at := some t, updated_at := t }
            = false := by
          simp [userVisibleWithEmail]
        have hp2 : userVisibleWithEmail e w = false := by
          simp [userVisibleWithEmail]
          intro hc
          rw [hwE] at hc
          exact absurd hc (fun hc2 => he hc2.symm)
        rw [hp1, hp2]
      · have h1 : (if (w.id == i) = true
            then { existing with deleted_at := some t, updated_at := t } else w) = w := by
          simp [hwi]
        rw [h1]
    · intro w hw hp
      have hwe : w.email = e := by
        simp [userVisibleWithEmail] at hp
        exact hp.1
      have hwi : w.id ≠ i := by
        intro hc
        have := hEid w hw hc
        rw [this] at hwe
        exact he hwe.symm
      simp [hwi]
  · refine ⟨{ existing with deleted_at := some t, updated_at := t }, ?_, by simp [hidE], by simp⟩
    rw [hrows]
    apply List.mem_map.mpr
    exact ⟨existing, hmemE, by simp [hidE]⟩

theorem dbDelete_ok {db : DB} {i : Nat} {existing : User} {db2 : DB}
    (hwf : WF db) (hfind : dbFindById db i = some existing)
    (h : dbDelete db i = Except.ok db2) :
    db2.rows = db.rows.filter (fun v => v.id != i) ∧
    db2.nextId = db.nextId ∧
    WF db2 ∧
    dbFindById db2 i = none ∧
    dbFindByEmail db2 existing.email = none ∧
    (∀ j, j ≠ i → dbFindById db2 j = dbFindById db j) ∧
    (∀ e, e ≠ existing.email → dbFindByEmail db2 e = dbFindByEmail db e) := by
  have hrow := rowById_of_findById hwf hfind
  obtain ⟨hmemE, hidE, hdelE⟩ := dbFindById_some hfind
  simp [dbDelete, hrow] at h
  have hrows : db2.rows = db.rows.filter (fun v => v.id != i) := by
    rw [← h]
  have hnext : db2.nextId = db.nextId := by rw [← h]
  have hwf2 : WF db2 := by
    constructor
    · rw [hrows]
      exact hwf.1.filter _
    · intro w hw
      rw [hrows] at hw
      rw [hnext]
      exact hwf.2 w (List.mem_of_mem_filter hw)
  have hnone_id : dbFindById db2 i = none := by
    unfold dbFindById
    apply List.find?_eq_none.mpr
    intro w hw
    rw [hrows] at hw
    have := List.of_mem_filter hw
    simp at this
    simp [userVisibleWithId]
    intro hc
    exact absurd hc this
  have hnone_em : dbFindByEmail db2 existing.email = none := by
    unfold dbFindByEmail
    apply List.find?_eq_none.mpr
    intro w hw
    rw [hrows] at hw
    have hne : w.id ≠ i := by
      have := List.of_mem_filter hw
      simpa using this
    have hmem : w ∈ db.rows := List.mem_of_mem_filter hw
    have hwne : w ≠ existing := by
      intro hc
      rw [hc] at hne
      exact hne hidE
    simp [userVisibleWithEmail]
    intro hc
    exact absurd hc (wf_distinct hwf hmem hmemE hwne).2
  refine ⟨hrows, hnext, hwf2, hnone_id, hnone_em, ?_, ?_⟩
  · intro j hj
    unfold dbFindById
    rw [hrows]
    apply findq_filter_congr
    intro w hw hp
    have : w.id = j := by
      simp [userVisibleWithId] at hp
      exact hp.1
    simp [this, hj]
  · intro e he
    unfold dbFindByEmail
    rw [hrows]
    apply findq_filter_congr
    intro w hw hp
    have hwe : w.email = e := by
      simp [userVisibleWithEmail] at hp
      exact hp.1
    have hwi : w.id ≠ i := by
      intro hc
      have hwE : w = existing := eq_of_same_id hwf hmemE hw (by rw [hc, hidE])
      rw [hwE] at hwe
      exact he hwe.symm
    simp [hwi]

/-! ## Helper lemmas: the cache layer -/

theorem setCacheUser_db (st : RepoState) (u : User) : (setCacheUser st u).db = st.db := by
  unfold setCacheUser
  by_cases h : st.cacheReady <;> simp [h]

theorem setCacheUser_ready (st : RepoState) (u : User) :
    (setCacheUser st u).cacheReady = st.cacheReady := by
  unfold setCacheUser
  by_cases h : st.cacheReady <;> simp [h]

theorem invalidateCacheUser_db (st : RepoState) (u : User) :
    (invalidateCacheUser st u).db = st.db := by
  unfold invalidateCacheUser
  by_cases h : st.cacheReady <;> simp [h]

theorem invalidateCacheUser_ready (st : RepoState) (u : User) :
    (invalidateCacheUser st u).cacheReady = st.cacheReady := by
  unfold invalidateCacheUser
  by_cases h : st.cacheReady <;> simp [h]

theorem getCacheUserById_some {st : RepoState} {i : Nat} {u : User}
    (h : getCacheUserById st i = some u) :
    st.cacheReady = true ∧ alookup st.cache.byId i = some u := by
  unfold getCacheUserById at h
  by_cases hr : st.cacheReady
  · exact ⟨hr, by rwa [if_pos hr] at h⟩
  · rw [if_neg hr] at h
    exact absurd h (by simp)

theorem getCacheUserByEmail_some {st : RepoState} {e : String} {u : User}
    (h : getCacheUserByEmail st e = some u) :
    st.cacheReady = true ∧ alookup st.cache.byEmail e = some u := by
  unfold getCacheUserByEmail at h
  by_cases hr : st.cacheReady
  · exact ⟨hr, by rwa [if_pos hr] at h⟩
  · rw [if_neg hr] at h
    exact absurd h (by simp)

theorem cacheOk_set {st : RepoState} {u : User} (hOk : CacheOk st.cache st.db)
    (h1 : dbFindById st.db u.id = some u) (h2 : dbFindByEmail st.db u.email = some u) :
    CacheOk (setCacheUser st u).cache st.db := by
  unfold setCacheUser
  by_cases hr : st.cacheReady
  · rw [if_pos hr]
    constructor
    · intro j v hv
      by_cases hj : j = u.id
      · rw [hj, alookup_aset_self] at hv
        rw [hj, ← Option.some.inj hv]
        exact h1
      · rw [alookup_aset_ne _ _ _ _ hj] at hv
        exact hOk.1 j v hv
    · intro e v hv
      by_cases he : e = u.email
      · rw [he, alookup_aset_self] at hv
        rw [he, ← Option.some.inj hv]
        exact h2
      · rw [alookup_aset_ne _ _ _ _ he] at hv
        exact hOk.2 e v hv
  · rw [if_neg hr]
    exact hOk

/-- Invalidating the two keys of a row `u` keeps the cache coherent with any
new store state in which every identifier other than the two keys of `u`
still resolves as before. -/
theorem cacheOk_invalidate_shift {st : RepoState} {u : User} {db2 : DB}
    (hOk : CacheOk st.cache st.db)
    (hid : ∀ j v, j ≠ u.id → dbFindById st.db j = some v → dbFindById db2 j = some v)
    (hem : ∀ e v, e ≠ u.email → dbFindByEmail st.db e = some v → dbFindByEmail db2 e = some v)
    (hready : st.cacheReady = true) :
    CacheOk (invalidateCacheUser st u).cache db2 := by
  unfold invalidateCacheUser
  rw [if_pos hready]
  constructor
  · intro j v hv
    by_cases hj : j = u.id
    · rw [hj, alookup_adel_self] at hv
      exact absurd hv (by simp)
    · rw [alookup_adel_ne _ _ _ hj] at hv
      exact hid j v hj (hOk.1 j v hv)
  · intro e v hv
    by_cases he : e = u.email
    · rw [he, alookup_adel_self] at hv
      exact absurd hv (by simp)
    · rw [alookup_adel_ne _ _ _ he] at hv
      exact hem e v he (hOk.2 e v hv)

theorem cacheOk_mono {c : Cache} {db db2 : DB} (hOk : CacheOk c db)
    (hid : ∀ i u, dbFindById db i = some u → dbFindById db2 i = some u)
    (hem : ∀ e u, dbFindByEmail db e = some u → dbFindByEmail db2 e = some u) :
    CacheOk c db2 := by
  constructor
  · intro i u hu
    exact hid i u (hOk.1 i u hu)
  · intro e u hu
    exact hem e u (hOk.2 e u hu)

/-! ## Characterization of the repository operations under the invariant -/

theorem findById_char {st : RepoState} (h : RepoInv st) (i : Nat) :
    (UserRepository.findById st i).1 = Except.ok (dbFindById st.db i) ∧
    (UserRepository.findById st i).2.db = st.db ∧
    (UserRepository.findById st i).2.cacheReady = st.cacheReady ∧
    RepoInv (UserRepository.findById st i).2 := by
  unfold UserRepository.findById
  cases hc : getCacheUserById st i with
  | some u =>
    obtain ⟨hr, hl⟩ := getCacheUserById_some hc
    have hdb : dbFindById st.db i = some u := (h.2 hr).1 i u hl
    simp [hdb, h]
  | none =>
    cases hdb : dbFindById st.db i with
    | some u =>
      obtain ⟨hmem, hid, hdel⟩ := dbFindById_some hdb
      refine ⟨rfl, setCacheUser_db _ _, setCacheUser_ready _ _, ?_⟩
      constructor
      · rw [setCacheUser_db]
        exact h.1
      · intro hr
        rw [setCacheUser_ready] at hr
        rw [setCacheUser_db]
        apply cacheOk_set (h.2 hr)
        · rw [hid]
          exact hdb
        · exact dbFindByEmail_of_mem h.1 hmem hdel
    | none => simp [h]

theorem findByEmail_char {st : RepoState} (h : RepoInv st) (e : String) :
    (UserRepository.findByEmail st e).1 = Except.ok (dbFindByEmail st.db e) ∧
    (UserRepository.findByEmail st e).2.db = st.db ∧
    (UserRepository.findByEmail st e).2.cacheReady = st.cacheReady ∧
    RepoInv (UserRepository.findByEmail st e).2 := by
  unfold UserRepository.findByEmail
  cases hc : getCacheUserByEmail st e with
  | some u =>
    obtain ⟨hr, hl⟩ := getCacheUserByEmail_some hc
    have hdb : dbFindByEmail st.db e = some u := (h.2 hr).2 e u hl
    simp [hdb, h]
  | none =>
    cases hdb : dbFindByEmail st.db e with
    | some u =>
      obtain ⟨hmem, hem, hdel⟩ := dbFindByEmail_some hdb
      refine ⟨rfl, setCacheUser_db _ _, setCacheUser_ready _ _, ?_⟩
      constructor
      · rw [setCacheUser_db]
        exact h.1
      · intro hr
        rw [setCacheUser_ready] at hr
        rw [setCacheUser_db]
        apply cacheOk_set (h.2 hr)
        · exact dbFindById_of_mem h.1 hmem hdel
        · rw [hem]
          exact hdb
    | none => simp [h]

theorem create_char {st : RepoState} (h : RepoInv st) (data : CreateUserRequest) (t : Nat) :
    (UserRepository.create st data t).1 = (pCreate st.db data t).1 ∧
    (UserRepository.create st data t).2.db = (pCreate st.db data t).2 ∧
    (UserRepository.create st data t).2.cacheReady = st.cacheReady ∧
    RepoInv (UserRepository.create st data t).2 := by
  obtain ⟨h1, h2, h3, h4⟩ := findByEmail_char h data.email
  cases hdb : dbFindByEmail st.db data.email with
  | some u =>
    rw [hdb] at h1
    simp only [UserRepository.create, pCreate, h1, hdb]
    exact ⟨trivial, h2, h3, h4⟩
  | none =>
    rw [hdb] at h1
    simp only [UserRepository.create, pCreate, h1, hdb, h2]
    cases hcr : dbCreate st.db data (hashPassword data.password) t with
    | error e =>
      simp only [hcr]
      exact ⟨trivial, h2, h3, h4⟩
    | ok p =>
      obtain ⟨u, db2⟩ := p
      obtain ⟨hrows, huid, huem, hudel, hwf2, hfid, hfem, hpresid, hpresem⟩ :=
        dbCreate_ok h.1 hcr
      simp only [hcr]
      refine ⟨trivial, by rw [setCacheUser_db], ?_, ?_⟩
      · rw [setCacheUser_ready]
        exact h3
      · constructor
        · rw [setCacheUser_db]
          exact hwf2
        · intro hr
          rw [setCacheUser_ready] at hr
          have hr2 : (UserRepository.findByEmail st data.email).2.cacheReady = true := hr
          have hOk : CacheOk (UserRepository.findByEmail st data.email).2.cache st.db := by
            have := h4.2 hr2
            rwa [h2] at this
          rw [setCacheUser_db]
          apply cacheOk_set
          · exact cacheOk_mono hOk hpresid hpresem
          · exact hfid
          · exact hfem

theorem update_char {st : RepoState} (h : RepoInv st) (i : Nat) (d : UpdateUserRequest) (t : Nat) :
    (UserRepository.update st i d t).1 = (pUpdate st.db i d t).1 ∧
    (UserRepository.update st i d t).2.db = (pUpdate st.db i d t).2 ∧
    (UserRepository.update st i d t).2.cacheReady = st.cacheReady ∧
    RepoInv (UserRepository.update st i d t).2 := by
  obtain ⟨h1, h2, h3, h4⟩ := findById_char h i
  cases hdb : dbFindById st.db i with
  | none =>
    rw [hdb] at h1
    simp only [UserRepository.update, pUpdate, h1, hdb]
    exact ⟨trivial, h2, h3, h4⟩
  | some existing =>
    rw [hdb] at h1
    have hidE : existing.id = i := (dbFindById_some hdb).2.1
    cases hd : d.email with
    | none =>
      simp only [UserRepository.update, pUpdate, h1, hdb, hd]
      set W : RepoState := (UserRepository.findById st i).2 with hWdef
      have hWdb : W.db = st.db := h2
      have hWready : W.cacheReady = st.cacheReady := h3
      have hWinv : RepoInv W := h4
      try rw [if_neg (by decide : ¬ ((false : Bool) = true))]
      try rw [if_neg (by decide : ¬ ((false : Bool) = true))]
      cases hupd : dbUpdate st.db i d t with
      | error err =>
        simp only [invalidateCacheUser_db, hWdb, hupd]
        refine ⟨?_, ?_, ?_, ?_⟩
        · first
          | trivial
          | rfl
        · first
          | trivial
          | (show (invalidateCacheUser W existing).db = st.db
             rw [invalidateCacheUser_db, hWdb])
        · first
          | trivial
          | (show (invalidateCacheUser W existing).cacheReady = st.cacheReady
             rw [invalidateCacheUser_ready, hWready])
        · constructor
          · show WF (invalidateCacheUser W existing).db
            rw [invalidateCacheUser_db, hWdb]
            exact h.1
          · intro hr
            have hWr : W.cacheReady = true := by
              rw [← invalidateCacheUser_ready W existing]
              exact hr
            have hOkW : CacheOk W.cache W.db := hWinv.2 hWr
            show CacheOk (invalidateCacheUser W existing).cache (invalidateCacheUser W existing).db
            rw [invalidateCacheUser_db]
            exact cacheOk_invalidate_shift hOkW (fun j v hj hv => hv) (fun e2 v he hv => hv) hWr
      | ok p =>
        obtain ⟨u2, db2⟩ := p
        obtain ⟨hu2, hrows, hnext, hnoany, hwf2, hu2id, hu2del, hfind2, hfindem2,
          hpresid, hpresem, hnonold⟩ := dbUpdate_ok h.1 hdb hupd
        simp only [invalidateCacheUser_db, hWdb, hupd]
        refine ⟨?_, ?_, ?_, ?_⟩
        · first
          | trivial
          | rfl
        · first
          | trivial
          | (show (setCacheUser { invalidateCacheUser W existing with db := db2 } u2).db = db2
             rw [setCacheUser_db])
        · first
          | trivial
          | (show (setCacheUser { invalidateCacheUser W existing with db := db2 }
                u2).cacheReady = st.cacheReady
             rw [setCacheUser_ready]
             show (invalidateCacheUser W existing).cacheReady = st.cacheReady
             rw [invalidateCacheUser_ready, hWready])
        · constructor
          · show WF (setCacheUser { invalidateCacheUser W existing with db := db2 } u2).db
            rw [setCacheUser_db]
            exact hwf2
          · intro hr
            have hrS : ({ invalidateCacheUser W existing with db := db2 } :
                RepoState).cacheReady = true := by
              rw [← setCacheUser_ready { invalidateCacheUser W existing with db := db2 } u2]
              exact hr
            have hWr : W.cacheReady = true := by
              rw [← invalidateCacheUser_ready W existing]
              exact hrS
            have hstep1 : CacheOk (invalidateCacheUser W existing).cache db2 := by
              refine cacheOk_invalidate_shift (hWinv.2 hWr) ?_ ?_ hWr
              · intro j v hj hv
                rw [hWdb] at hv
                have hji : j ≠ i := by
                  rw [← hidE]
                  exact hj
                rw [hpresid j hji]
                exact hv
              · intro e2 v he hv
                rw [hWdb] at hv
                by_cases heu : e2 = u2.email
                · exfalso
                  obtain ⟨hvm, hve, hvd⟩ := dbFindByEmail_some hv
                  by_cases hvi : v.id = i
                  · have hvE : v = existing :=
                      eq_of_same_id h.1 (dbFindById_some hdb).1 hvm (by rw [hvi, hidE])
                    rw [hvE] at hve
                    exact he hve.symm
                  · exact hnoany v hvm hvi (by rw [hve, heu])
                · rw [hpresem e2 he heu]
                  exact hv
            have hstep2 : CacheOk
                (setCacheUser { invalidateCacheUser W existing with db := db2 } u2).cache
                ({ invalidateCacheUser W existing with db := db2 } : RepoState).db := by
              apply cacheOk_set
              · exact hstep1
              · show dbFindById db2 u2.id = some u2
                rw [hu2id]
                exact hfind2
              · exact hfindem2
            show CacheOk
              (setCacheUser { invalidateCacheUser W existing with db := db2 } u2).cache
              (setCacheUser { invalidateCacheUser W existing with db := db2 } u2).db
            rw [setCacheUser_db]
            exact hstep2
    | some e =>
      by_cases hcond : e ≠ "" ∧ e ≠ existing.email
      · obtain ⟨g1, g2, g3, g4⟩ := findByEmail_char h4 e
        rw [h2] at g1
        cases hdb2 : dbFindByEmail st.db e with
        | some u =>
          rw [hdb2] at g1
          simp only [UserRepository.update, pUpdate, h1, hdb, hd, if_pos hcond, g1, hdb2,
            Option.isSome]
          try rw [if_pos (True.intro)]
          try rw [if_pos (rfl : (true : Bool) = true)]
          refine ⟨?_, ?_, ?_, ?_⟩
          · first
            | trivial
            | rfl
          · first
            | trivial
            | (show (UserRepository.findByEmail (UserRepository.findById st i).2 e).2.db = st.db
               rw [g2, h2])
          · first
            | trivial
            | (show (UserRepository.findByEmail
                  (UserRepository.findById st i).2 e).2.cacheReady = st.cacheReady
               rw [g3, h3])
          · exact g4
        | none =>
          rw [hdb2] at g1
          simp only [UserRepository.update, pUpdate, h1, hdb, hd, if_pos hcond, g1, hdb2,
            Option.isSome]
          set W : RepoState := (UserRepository.findByEmail (UserRepository.findById st i).2 e).2
            with hWdef
          have hWdb : W.db = st.db := by rw [hWdef, g2, h2]
          have hWready : W.cacheReady = st.cacheReady := by rw [hWdef, g3, h3]
          have hWinv : RepoInv W := g4
          try rw [if_neg (by decide : ¬ ((false : Bool) = true))]
          try rw [if_neg (by decide : ¬ ((false : Bool) = true))]
          cases hupd : dbUpdate st.db i d t with
          | error err =>
            simp only [invalidateCacheUser_db, hWdb, hupd]
            refine ⟨?_, ?_, ?_, ?_⟩
            · first
              | trivial
              | rfl
            · first
              | trivial
              | (show (invalidateCacheUser W existing).db = st.db
                 rw [invalidateCacheUser_db, hWdb])
            · first
              | trivial
              | (show (invalidateCacheUser W existing).cacheReady = st.cacheReady
                 rw [invalidateCacheUser_ready, hWready])
            · constructor
              · show WF (invalidateCacheUser W existing).db
                rw [invalidateCacheUser_db, hWdb]
                exact h.1
              · intro hr
                have hWr : W.cacheReady = true := by
                  rw [← invalidateCacheUser_ready W existing]
                  exact hr
                have hOkW : CacheOk W.cache W.db := hWinv.2 hWr
                show CacheOk (invalidateCacheUser W existing).cache (invalidateCacheUser W existing).db
                rw [invalidateCacheUser_db]
                exact cacheOk_invalidate_shift hOkW (fun j v hj hv => hv) (fun e2 v he hv => hv) hWr
          | ok p =>
            obtain ⟨u2, db2⟩ := p
            obtain ⟨hu2, hrows, hnext, hnoany, hwf2, hu2id, hu2del, hfind2, hfindem2,
              hpresid, hpresem, hnonold⟩ := dbUpdate_ok h.1 hdb hupd
            simp only [invalidateCacheUser_db, hWdb, hupd]
            refine ⟨?_, ?_, ?_, ?_⟩
            · first
              | trivial
              | rfl
            · first
              | trivial
              | (show (setCacheUser { invalidateCacheUser W existing with db := db2 } u2).db = db2
                 rw [setCacheUser_db])
            · first
              | trivial
              | (show (setCacheUser { invalidateCacheUser W existing with db := db2 }
                    u2).cacheReady = st.cacheReady
                 rw [setCacheUser_ready]
                 show (invalidateCacheUser W existing).cacheReady = st.cacheReady
                 rw [invalidateCacheUser_ready, hWready])
            · constructor
              · show WF (setCacheUser { invalidateCacheUser W existing with db := db2 } u2).db
                rw [setCacheUser_db]
                exact hwf2
              · intro hr
                have hrS : ({ invalidateCacheUser W existing with db := db2 } :
                    RepoState).cacheReady = true := by
                  rw [← setCacheUser_ready { invalidateCacheUser W existing with db := db2 } u2]
                  exact hr
                have hWr : W.cacheReady = true := by
                  rw [← invalidateCacheUser_ready W existing]
                  exact hrS
                have hstep1 : CacheOk (invalidateCacheUser W existing).cache db2 := by
                  refine cacheOk_invalidate_shift (hWinv.2 hWr) ?_ ?_ hWr
                  · intro j v hj hv
                    rw [hWdb] at hv
                    have hji : j ≠ i := by
                      rw [← hidE]
                      exact hj
                    rw [hpresid j hji]
                    exact hv
                  · intro e2 v he hv
                    rw [hWdb] at hv
                    by_cases heu : e2 = u2.email
                    · exfalso
                      obtain ⟨hvm, hve, hvd⟩ := dbFindByEmail_some hv
                      by_cases hvi : v.id = i
                      · have hvE : v = existing :=
                          eq_of_same_id h.1 (dbFindById_some hdb).1 hvm (by rw [hvi, hidE])
                        rw [hvE] at hve
                        exact he hve.symm
                      · exact hnoany v hvm hvi (by rw [hve, heu])
                    · rw [hpresem e2 he heu]
                      exact hv
                have hstep2 : CacheOk
                    (setCacheUser { invalidateCacheUser W existing with db := db2 } u2).cache
                    ({ invalidateCacheUser W existing with db := db2 } : RepoState).db := by
                  apply cacheOk_set
                  · exact hstep1
                  · show dbFindById db2 u2.id = some u2
                    rw [hu2id]
                    exact hfind2
                  · exact hfindem2
                show CacheOk
                  (setCacheUser { invalidateCacheUser W existing with db := db2 } u2).cache
                  (setCacheUser { invalidateCacheUser W existing with db := db2 } u2).db
                rw [setCacheUser_db]
                exact hstep2
      · simp only [UserRepository.update, pUpdate, h1, hdb, hd, if_neg hcond]
        set W : RepoState := (UserRepository.findById st i).2 with hWdef
        have hWdb : W.db = st.db := h2
        have hWready : W.cacheReady = st.cacheReady := h3
        have hWinv : RepoInv W := h4
        try rw [if_neg (by decide : ¬ ((false : Bool) = true))]
        try rw [if_neg (by decide : ¬ ((false : Bool) = true))]
        cases hupd : dbUpdate st.db i d t with
        | error err =>
          simp only [invalidateCacheUser_db, hWdb, hupd]
          refine ⟨?_, ?_, ?_, ?_⟩
          · first
            | trivial
            | rfl
          · first
            | trivial
            | (show (invalidateCacheUser W existing).db = st.db
               rw [invalidateCacheUser_db, hWdb])
          · first
            | trivial
            | (show (invalidateCacheUser W existing).cacheReady = st.cacheReady
               rw [invalidateCacheUser_ready, hWready])
          · constructor
            · show WF (invalidateCacheUser W existing).db
              rw [invalidateCacheUser_db, hWdb]
              exact h.1
            · intro hr
              have hWr : W.cacheReady = true := by
                rw [← invalidateCacheUser_ready W existing]
                exact hr
              have hOkW : CacheOk W.cache W.db := hWinv.2 hWr
              show CacheOk (invalidateCacheUser W existing).cache (invalidateCacheUser W existing).db
              rw [invalidateCacheUser_db]
              exact cacheOk_invalidate_shift hOkW (fun j v hj hv => hv) (fun e2 v he hv => hv) hWr
        | ok p =>
          obtain ⟨u2, db2⟩ := p
          obtain ⟨hu2, hrows, hnext, hnoany, hwf2, hu2id, hu2del, hfind2, hfindem2,
            hpresid, hpresem, hnonold⟩ := dbUpdate_ok h.1 hdb hupd
          simp only [invalidateCacheUser_db, hWdb, hupd]
          refine ⟨?_, ?_, ?_, ?_⟩
          · first
            | trivial
            | rfl
          · first
            | trivial
            | (show (setCacheUser { invalidateCacheUser W existing with db := db2 } u2).db = db2
               rw [setCacheUser_db])
          · first
            | trivial
            | (show (setCacheUser { invalidateCacheUser W existing with db := db2 }
                  u2).cacheReady = st.cacheReady
               rw [setCacheUser_ready]
               show (invalidateCacheUser W existing).cacheReady = st.cacheReady
               rw [invalidateCacheUser_ready, hWready])
          · constructor
            · show WF (setCacheUser { invalidateCacheUser W existing with db := db2 } u2).db
              rw [setCacheUser_db]
              exact hwf2
            · intro hr
              have hrS : ({ invalidateCacheUser W existing with db := db2 } :
                  RepoState).cacheReady = true := by
                rw [← setCacheUser_ready { invalidateCacheUser W existing with db := db2 } u2]
                exact hr
              have hWr : W.cacheReady = true := by
                rw [← invalidateCacheUser_ready W existing]
                exact hrS
              have hstep1 : CacheOk (invalidateCacheUser W existing).cache db2 := by
                refine cacheOk_invalidate_shift (hWinv.2 hWr) ?_ ?_ hWr
                · intro j v hj hv
                  rw [hWdb] at hv
                  have hji : j ≠ i := by
                    rw [← hidE]
                    exact hj
                  rw [hpresid j hji]
                  exact hv
                · intro e2 v he hv
                  rw [hWdb] at hv
                  by_cases heu : e2 = u2.email
                  · exfalso
                    obtain ⟨hvm, hve, hvd⟩ := dbFindByEmail_some hv
                    by_cases hvi : v.id = i
                    · have hvE : v = existing :=
                        eq_of_same_id h.1 (dbFindById_some hdb).1 hvm (by rw [hvi, hidE])
                      rw [hvE] at hve
                      exact he hve.symm
                    · exact hnoany v hvm hvi (by rw [hve, heu])
                  · rw [hpresem e2 he heu]
                    exact hv
              have hstep2 : CacheOk
                  (setCacheUser { invalidateCacheUser W existing with db := db2 } u2).cache
                  ({ invalidateCacheUser W existing with db := db2 } : RepoState).db := by
                apply cacheOk_set
                · exact hstep1
                · show dbFindById db2 u2.id = some u2
                  rw [hu2id]
                  exact hfind2
                · exact hfindem2
              show CacheOk
                (setCacheUser { invalidateCacheUser W existing with db := db2 } u2).cache
                (setCacheUser { invalidateCacheUser W existing with db := db2 } u2).db
              rw [setCacheUser_db]
              exact hstep2

theorem softDelete_char {st : RepoState} (h : RepoInv st) (i : Nat) (t : Nat) :
    (UserRepository.softDelete st i t).1 = (pSoftDelete st.db i t).1 ∧
    (UserRepository.softDelete st i t).2.db = (pSoftDelete st.db i t).2 ∧
    (UserRepository.softDelete st i t).2.cacheReady = st.cacheReady ∧
    RepoInv (UserRepository.softDelete st i t).2 := by
  obtain ⟨h1, h2, h3, h4⟩ := findById_char h i
  cases hdb : dbFindById st.db i with
  | none =>
    rw [hdb] at h1
    simp only [UserRepository.softDelete, pSoftDelete, h1, hdb]
    exact ⟨trivial, h2, h3, h4⟩
  | some u =>
    rw [hdb] at h1
    have hidE : u.id = i := (dbFindById_some hdb).2.1
    simp only [UserRepository.softDelete, pSoftDelete, h1, hdb]
    set W : RepoState := (UserRepository.findById st i).2 with hWdef
    have hWdb : W.db = st.db := h2
    have hWready : W.cacheReady = st.cacheReady := h3
    have hWinv : RepoInv W := h4
    rw [invalidateCacheUser_db, hWdb]
    cases hupd : dbSetDeleted st.db i t with
    | error err =>
      simp only [invalidateCacheUser_db, hWdb, hupd]
      refine ⟨?_, ?_, ?_, ?_⟩
      · first
        | trivial
        | rfl
      · first
        | trivial
        | (show (invalidateCacheUser W u).db = st.db
           rw [invalidateCacheUser_db, hWdb])
      · first
        | trivial
        | (show (invalidateCacheUser W u).cacheReady = st.cacheReady
           rw [invalidateCacheUser_ready, hWready])
      · constructor
        · show WF (invalidateCacheUser W u).db
          rw [invalidateCacheUser_db, hWdb]
          exact h.1
        · intro hr
          have hWr : W.cacheReady = true := by
            rw [← invalidateCacheUser_ready W u]
            exact hr
          show CacheOk (invalidateCacheUser W u).cache (invalidateCacheUser W u).db
          rw [invalidateCacheUser_db]
          exact cacheOk_invalidate_shift (hWinv.2 hWr)
            (fun j v hj hv => hv) (fun e2 v he hv => hv) hWr
    | ok db2 =>
      obtain ⟨hrows, hnext, hwf2, hnone_id, hnone_em, hpresid, hpresem, hexist⟩ :=
        dbSetDeleted_ok h.1 hdb hupd
      simp only [hupd]
      refine ⟨?_, ?_, ?_, ?_⟩
      · first
        | trivial
        | rfl
      · first
        | trivial
        | rfl
      · first
        | trivial
        | (show (invalidateCacheUser W u).cacheReady = st.cacheReady
           rw [invalidateCacheUser_ready, hWready])
      · constructor
        · show WF db2
          exact hwf2
        · intro hr
          have hWr : W.cacheReady = true := by
            rw [← invalidateCacheUser_ready W u]
            exact hr
          show CacheOk (invalidateCacheUser W u).cache db2
          refine cacheOk_invalidate_shift (hWinv.2 hWr) ?_ ?_ hWr
          · intro j v hj hv
            rw [hWdb] at hv
            have hji : j ≠ i := by
              rw [← hidE]
              exact hj
            rw [hpresid j hji]
            exact hv
          · intro e2 v he hv
            rw [hWdb] at hv
            rw [hpresem e2 he]
            exact hv

theorem remove_char {st : RepoState} (h : RepoInv st) (i : Nat) :
    (UserRepository.remove st i).1 = (pRemove st.db i).1 ∧
    (UserRepository.remove st i).2.db = (pRemove st.db i).2 ∧
    (UserRepository.remove st i).2.cacheReady = st.cacheReady ∧
    RepoInv (UserRepository.remove st i).2 := by
  obtain ⟨h1, h2, h3, h4⟩ := findById_char h i
  cases hdb : dbFindById st.db i with
  | none =>
    rw [hdb] at h1
    simp only [UserRepository.remove, pRemove, h1, hdb]
    exact ⟨trivial, h2, h3, h4⟩
  | some u =>
    rw [hdb] at h1
    have hidE : u.id = i := (dbFindById_some hdb).2.1
    simp only [UserRepository.remove, pRemove, h1, hdb]
    set W : RepoState := (UserRepository.findById st i).2 with hWdef
    have hWdb : W.db = st.db := h2
    have hWready : W.cacheReady = st.cacheReady := h3
    have hWinv : RepoInv W := h4
    rw [invalidateCacheUser_db, hWdb]
    cases hupd : dbDelete st.db i with
    | error err =>
      simp only [invalidateCacheUser_db, hWdb, hupd]
      refine ⟨?_, ?_, ?_, ?_⟩
      · first
        | trivial
        | rfl
      · first
        | trivial
        | (show (invalidateCacheUser W u).db = st.db
           rw [invalidateCacheUser_db, hWdb])
      · first
        | trivial
        | (show (invalidateCacheUser W u).cacheReady = st.cacheReady
           rw [invalidateCacheUser_ready, hWready])
      · constructor
        · show WF (invalidateCacheUser W u).db
          rw [invalidateCacheUser_db, hWdb]
          exact h.1
        · intro hr
          have hWr : W.cacheReady = true := by
            rw [← invalidateCacheUser_ready W u]
            exact hr
          show CacheOk (invalidateCacheUser W u).cache (invalidateCacheUser W u).db
          rw [invalidateCacheUser_db]
          exact cacheOk_invalidate_shift (hWinv.2 hWr)
            (fun j v hj hv => hv) (fun e2 v he hv => hv) hWr
    | ok db2 =>
      obtain ⟨hrows, hnext, hwf2, hnone_id, hnone_em, hpresid, hpresem⟩ :=
        dbDelete_ok h.1 hdb hupd
      simp only [hupd]
      refine ⟨?_, ?_, ?_, ?_⟩
      · first
        | trivial
        | rfl
      · first
        | trivial
        | rfl
      · first
        | trivial
        | (show (invalidateCacheUser W u).cacheReady = st.cacheReady
           rw [invalidateCacheUser_ready, hWready])
      · constructor
        · show WF db2
          exact hwf2
        · intro hr
          have hWr : W.cacheReady = true := by
            rw [← invalidateCacheUser_ready W u]
            exact hr
          show CacheOk (invalidateCacheUser W u).cache db2
          refine cacheOk_invalidate_shift (hWinv.2 hWr) ?_ ?_ hWr
          · intro j v hj hv
            rw [hWdb] at hv
            have hji : j ≠ i := by
              rw [← hidE]
              exact hj
            rw [hpresid j hji]
            exact hv
          · intro e2 v he hv
            rw [hWdb] at hv
            rw [hpresem e2 he]
            exact hv

theorem findMany_char (st : RepoState) (p : UserSearchParams) :
    UserRepository.findMany st p = (pFindMany st.db p, st) := by
  rfl

theorem runOp_char {st : RepoState} (h : RepoInv st) (op : Op) :
    (runOp st op).1 = (pureOp st.db op).1 ∧
    (runOp st op).2.db = (pureOp st.db op).2 ∧
    (runOp st op).2.cacheReady = st.cacheReady ∧
    RepoInv (runOp st op).2 := by
  cases op with
  | createOp d t =>
    obtain ⟨c1, c2, c3, c4⟩ := create_char h d t
    exact ⟨by simp [runOp, pureOp, c1], by simp [runOp, pureOp, c2], by simp [runOp, c3],
      by simp [runOp, c4]⟩
  | findByIdOp i =>
    obtain ⟨c1, c2, c3, c4⟩ := findById_char h i
    exact ⟨by simp [runOp, pureOp, c1], by simp [runOp, pureOp, c2], by simp [runOp, c3],
      by simp [runOp, c4]⟩
  | findByEmailOp e =>
    obtain ⟨c1, c2, c3, c4⟩ := findByEmail_char h e
    exact ⟨by simp [runOp, pureOp, c1], by simp [runOp, pureOp, c2], by simp [runOp, c3],
      by simp [runOp, c4]⟩
  | findManyOp p =>
    have c := findMany_char st p
    exact ⟨by simp [runOp, pureOp, c], by simp [runOp, pureOp, c], by simp [runOp, c],
      by simp [runOp, c]; exact h⟩
  | updateOp i d t =>
    obtain ⟨c1, c2, c3, c4⟩ := update_char h i d t
    exact ⟨by simp [runOp, pureOp, c1], by simp [runOp, pureOp, c2], by simp [runOp, c3],
      by simp [runOp, c4]⟩
  | softDeleteOp i t =>
    obtain ⟨c1, c2, c3, c4⟩ := softDelete_char h i t
    exact ⟨by simp [runOp, pureOp, c1], by simp [runOp, pureOp, c2], by simp [runOp, c3],
      by simp [runOp, c4]⟩
  | removeOp i =>
    obtain ⟨c1, c2, c3, c4⟩ := remove_char h i
    exact ⟨by simp [runOp, pureOp, c1], by simp [runOp, pureOp, c2], by simp [runOp, c3],
      by simp [runOp, c4]⟩

theorem runOps_sim {st1 st2 : RepoState} (ops : List Op)
    (h1 : RepoInv st1) (h2 : RepoInv st2) (hdb : st1.db = st2.db) :
    (runOps st1 ops).1 = (runOps st2 ops).1 ∧
    (runOps st1 ops).2.db = (runOps st2 ops).2.db := by
  induction ops generalizing st1 st2 with
  | nil => exact ⟨rfl, hdb⟩
  | cons op rest ih =>
    obtain ⟨a1, a2, a3, a4⟩ := runOp_char h1 op
    obtain ⟨b1, b2, b3, b4⟩ := runOp_char h2 op
    have hres : (runOp st1 op).1 = (runOp st2 op).1 := by
      rw [a1, b1, hdb]
    have hdbs : (runOp st1 op).2.db = (runOp st2 op).2.db := by
      rw [a2, b2, hdb]
    obtain ⟨r1, r2⟩ := ih a4 b4 hdbs
    constructor
    · simp only [runOps]
      rw [hres, r1]
    · simp only [runOps]
      rw [r2]

/-! ## Claim theorems -/

theorem cacheOk_empty (db : DB) : CacheOk Cache.empty db := by
  constructor
  · intro k v hv
    exact absurd hv (by simp [Cache.empty, alookup])
  · intro k v hv
    exact absurd hv (by simp [Cache.empty, alookup])

theorem repoInv_emptyCache {db : DB} (hwf : WF db) (b : Bool) :
    RepoInv { db := db, cache := Cache.empty, cacheReady := b } :=
  ⟨hwf, fun _ => cacheOk_empty db⟩

/-- C1 counterexample: the Primary Store holds only a soft-deleted row owning
`gone@x.io`, so the pre-check (`findByEmail`, which only sees non-deleted
rows) finds nothing, the insert is rejected by the unique email index, and
`create` surfaces `DatabaseError` — not `ConflictError` as the claim
states. -/
theorem c1_counterexample :
    (UserRepository.findByEmail stGone "gone@x.io").1 = Except.ok none ∧
    (UserRepository.create stGone reqGone 5).1 = Except.error RepoError.databaseError ∧
    (UserRepository.create stGone reqGone 5).1 ≠ Except.error RepoError.conflict := by
  refine ⟨rfl, rfl, by decide⟩

/-- C1 (amended): when the email pre-check finds no non-deleted owner but
some row (e.g. a soft-deleted one) still owns the email, the Primary Store
insert is rejected by the unique constraint and `create` fails with
`DatabaseError` (the generic wrapper), not `ConflictError`; no row is
written. -/
theorem c1_amended_constraint_rejection_is_database_error
    {st : RepoState} (h : RepoInv st) (data : CreateUserRequest) (t : Nat)
    (hpre : dbFindByEmail st.db data.email = none)
    (htaken : ∃ v ∈ st.db.rows, v.email = data.email) :
    (UserRepository.create st data t).1 = Except.error RepoError.databaseError ∧
    (UserRepository.create st data t).2.db = st.db := by
  obtain ⟨c1, c2, c3, c4⟩ := create_char h data t
  have hany : (st.db.rows.any (fun v => v.email == data.email)) = true := by
    apply List.any_eq_true.mpr
    obtain ⟨v, hv, hve⟩ := htaken
    exact ⟨v, hv, by simp [hve]⟩
  have hcr : dbCreate st.db data (hashPassword data.password) t = Except.error () := by
    unfold dbCreate
    rw [if_pos hany]
  constructor
  · rw [c1]
    simp [pCreate, hpre, hcr]
  · rw [c2]
    simp [pCreate, hpre, hcr]

/-- Witness for C1 (amended) at the concrete soft-deleted fixture. -/
theorem c1_amended_witness :
    (RepoInv stGone ∧ dbFindByEmail stGone.db reqGone.email = none ∧
      (∃ v ∈ stGone.db.rows, v.email = reqGone.email)) ∧
    (UserRepository.create stGone reqGone 5).1 = Except.error RepoError.databaseError ∧
    (UserRepository.create stGone reqGone 5).2.db = stGone.db := by
  have hinv : RepoInv stGone := repoInv_emptyCache ⟨by decide, by decide⟩ true
  refine ⟨⟨hinv, by decide, ⟨uGone, by decide, by decide⟩⟩, ?_⟩
  exact c1_amended_constraint_rejection_is_database_error hinv reqGone 5 (by decide)
    ⟨uGone, by decide, by decide⟩

/-- C10: a soft-deleted row keeps its email reserved: the pre-check passes
(it only sees non-deleted rows), yet the insert hits the unique index that
covers all rows, `create` fails with `DatabaseError`, and no new row is
created. -/
theorem c10_softdeleted_email_never_reusable
    {st : RepoState} (h : RepoInv st) (data : CreateUserRequest) (t : Nat)
    (htaken : ∃ v ∈ st.db.rows, v.email = data.email ∧ v.deleted_at ≠ none)
    (hfree : dbFindByEmail st.db data.email = none) :
    (UserRepository.findByEmail st data.email).1 = Except.ok none ∧
    (UserRepository.create st data t).1 = Except.error RepoError.databaseError ∧
    (UserRepository.create st data t).2.db.rows = st.db.rows := by
  obtain ⟨f1, f2, f3, f4⟩ := findByEmail_char h data.email
  obtain ⟨c1, c2, c3, c4⟩ := create_char h data t
  have hany : (st.db.rows.any (fun v => v.email == data.email)) = true := by
    apply List.any_eq_true.mpr
    obtain ⟨v, hv, hve, hvd⟩ := htaken
    exact ⟨v, hv, by simp [hve]⟩
  have hcr : dbCreate st.db data (hashPassword data.password) t = Except.error () := by
    unfold dbCreate
    rw [if_pos hany]
  refine ⟨?_, ?_, ?_⟩
  · rw [f1, hfree]
  · rw [c1]
    simp [pCreate, hfree, hcr]
  · have : (UserRepository.create st data t).2.db = st.db := by
      rw [c2]
      simp [pCreate, hfree, hcr]
    rw [this]

/-- Witness for C10 at the concrete soft-deleted fixture. -/
theorem c10_witness :
    (RepoInv stGone ∧
      (∃ v ∈ stGone.db.rows, v.email = reqGone.email ∧ v.deleted_at ≠ none) ∧
      dbFindByEmail stGone.db reqGone.email = none) ∧
    (UserRepository.findByEmail stGone reqGone.email).1 = Except.ok none ∧
    (UserRepository.create stGone reqGone 9).1 = Except.error RepoError.databaseError ∧
    (UserRepository.create stGone reqGone 9).2.db.rows = stGone.db.rows := by
  have hinv : RepoInv stGone := repoInv_emptyCache ⟨by decide, by decide⟩ true
  refine ⟨⟨hinv, ⟨uGone, by decide, by decide, by decide⟩, by decide⟩, ?_⟩
  exact c10_softdeleted_email_never_reusable hinv reqGone 9
    ⟨uGone, by decide, by decide, by decide⟩ (by decide)

/-- C2 counterexample: a non-deleted user with the requested email exists in
the Primary Store but is not yet cached. The `create` call correctly fails
with `ConflictError` and writes no row, but its `findByEmail` pre-check has
cache-populated the existing user on the way, so the cache after the failed
call differs from the cache before it — contradicting the claim that no
cache entry is mutated. -/
theorem c2_counterexample :
    (UserRepository.create stA reqAda 7).1 = Except.error RepoError.conflict ∧
    (UserRepository.create stA reqAda 7).2.db.rows = stA.db.rows ∧
    (UserRepository.create stA reqAda 7).2.cache ≠ stA.cache := by
  refine ⟨rfl, rfl, by decide⟩

/-- C2 (amended): when a non-deleted user with `data.email` already exists,
`create` fails with `ConflictError` and writes no row; the final state is
exactly the state left by the `findByEmail` pre-check, whose only cache
effect is the cache-aside population of the already-existing user — in
particular, when that user is already cached under the email key, the state
is completely unchanged. -/
theorem c2_amended_conflict_writes_nothing
    {st : RepoState} {u : User} (h : RepoInv st) (data : CreateUserRequest) (t : Nat)
    (hdb : dbFindByEmail st.db data.email = some u) :
    (UserRepository.create st data t).1 = Except.error RepoError.conflict ∧
    (UserRepository.create st data t).2.db = st.db ∧
    (UserRepository.create st data t).2 = (UserRepository.findByEmail st data.email).2 ∧
    (getCacheUserByEmail st data.email = some u →
      (UserRepository.create st data t).2 = st) := by
  obtain ⟨f1, f2, f3, f4⟩ := findByEmail_char h data.email
  rw [hdb] at f1
  refine ⟨?_, ?_, ?_, ?_⟩
  · simp only [UserRepository.create, f1]
  · simp only [UserRepository.create, f1]
    exact f2
  · simp only [UserRepository.create, f1]
  · intro hc
    simp only [UserRepository.create, f1]
    unfold UserRepository.findByEmail
    rw [hc]

/-- Witness for C2 (amended) at a store holding the conflicting user. -/
theorem c2_amended_witness :
    (RepoInv stA ∧ dbFindByEmail stA.db reqAda.email = some uA) ∧
    (UserRepository.create stA reqAda 7).1 = Except.error RepoError.conflict ∧
    (UserRepository.create stA reqAda 7).2.db = stA.db ∧
    (UserRepository.create stA reqAda 7).2 = (UserRepository.findByEmail stA reqAda.email).2 ∧
    (getCacheUserByEmail stA reqAda.email = some uA →
      (UserRepository.create stA reqAda 7).2 = stA) := by
  have hinv : RepoInv stA := repoInv_emptyCache ⟨by decide, by decide⟩ true
  refine ⟨⟨hinv, by decide⟩, ?_⟩
  exact c2_amended_conflict_writes_nothing hinv reqAda 7 (by decide)

/-- C3: after a successful `softDelete(u.id)`, the user is invisible to
`findById`, `findByEmail` and `findMany` (which all return absence, not an
error), both cache keys of the user resolve to nothing (they were purged
before the `deleted_at` stamp), and the row itself is still in the Primary
Store with `deleted_at` set to the deletion timestamp. -/
theorem c3_softDelete_row_invisible_but_retained
    {st : RepoState} {u : User} (h : RepoInv st) (t : Nat)
    (hmem : u ∈ st.db.rows) (hdel : u.deleted_at = none) :
    (UserRepository.softDelete st u.id t).1 = Except.ok () ∧
    (UserRepository.findById (UserRepository.softDelete st u.id t).2 u.id).1 =
      Except.ok none ∧
    (UserRepository.findByEmail (UserRepository.softDelete st u.id t).2 u.email).1 =
      Except.ok none ∧
    (∀ p ws n, (UserRepository.findMany (UserRepository.softDelete st u.id t).2 p).1 =
      Except.ok (ws, n) → ∀ w ∈ ws, w.id ≠ u.id) ∧
    getCacheUserById (UserRepository.softDelete st u.id t).2 u.id = none ∧
    getCacheUserByEmail (UserRepository.softDelete st u.id t).2 u.email = none ∧
    (∃ w ∈ (UserRepository.softDelete st u.id t).2.db.rows,
      w.id = u.id ∧ w.deleted_at = some t) := by
  have hwf := h.1
  have hfind : dbFindById st.db u.id = some u := dbFindById_of_mem hwf hmem hdel
  have hrow : st.db.rows.find? (fun v => v.id == u.id) = some u :=
    rowById_of_findById hwf hfind
  have hset : dbSetDeleted st.db u.id t = Except.ok
      { st.db with rows := st.db.rows.map (fun v => if v.id == u.id
          then { u with deleted_at := some t, updated_at := t } else v) } := by
    unfold dbSetDeleted
    rw [hrow]
  obtain ⟨hrows, hnext, hwf2, hnone_id, hnone_em, hpresid, hpresem, hexist⟩ :=
    dbSetDeleted_ok hwf hfind hset
  obtain ⟨s1, s2, s3, s4⟩ := softDelete_char h u.id t
  have hsdb : (UserRepository.softDelete st u.id t).2.db =
      { st.db with rows := st.db.rows.map (fun v => if v.id == u.id
          then { u with deleted_at := some t, updated_at := t } else v) } := by
    rw [s2]
    simp [pSoftDelete, hfind, hset]
  obtain ⟨h1, h2, h3, h4⟩ := findById_char h u.id
  rw [hfind] at h1
  refine ⟨?_, ?_, ?_, ?_, ?_, ?_, ?_⟩
  · rw [s1]
    simp [pSoftDelete, hfind, hset]
  · obtain ⟨f1, _, _, _⟩ := findById_char s4 u.id
    rw [f1, hsdb, hnone_id]
  · obtain ⟨f1, _, _, _⟩ := findByEmail_char s4 u.email
    rw [f1, hsdb, hnone_em]
  · intro p ws n hfm w hw
    rw [findMany_char] at hfm
    have hws : ws = ((UserRepository.sortedMatchedRows
        (UserRepository.softDelete st u.id t).2.db p).drop
          ((p.page.getD 1 - 1) * (p.limit.getD 10))).take (p.limit.getD 10) := by
      have := Except.ok.inj hfm
      exact (Prod.mk.injEq _ _ _ _ ▸ this).1.symm
    rw [hws] at hw
    have hw2 : w ∈ UserRepository.sortedMatchedRows
        (UserRepository.softDelete st u.id t).2.db p :=
      List.drop_subset _ _ (List.take_subset _ _ hw)
    have hw3 : w ∈ UserRepository.matchedRows
        (UserRepository.softDelete st u.id t).2.db p :=
      (mem_sortByLe _ _ _).mp hw2
    have hw4 := List.mem_filter.mp hw3
    have hw5 : w.deleted_at = none := by
      have := hw4.2
      simp [UserRepository.userListed] at this
      exact this.1
    intro hcid
    have hwmem : w ∈ (UserRepository.softDelete st u.id t).2.db.rows := hw4.1
    rw [hsdb] at hwmem
    obtain ⟨v, hv, hfv⟩ := List.mem_map.mp hwmem
    by_cases hvi : v.id = u.id
    · have : w = { u with deleted_at := some t, updated_at := t } := by
        rw [← hfv]
        simp [hvi]
      rw [this] at hw5
      simp at hw5
    · have : w = v := by
        rw [← hfv]
        simp [hvi]
      rw [this] at hcid
      exact hvi hcid
  · simp only [UserRepository.softDelete, h1, invalidateCacheUser_db, h2, hset]
    by_cases hr : (UserRepository.findById st u.id).2.cacheReady
    · simp [getCacheUserById, invalidateCacheUser, hr, alookup_adel_self]
    · simp [getCacheUserById, invalidateCacheUser, hr]
  · simp only [UserRepository.softDelete, h1, invalidateCacheUser_db, h2, hset]
    by_cases hr : (UserRepository.findById st u.id).2.cacheReady
    · simp [getCacheUserByEmail, invalidateCacheUser, hr, alookup_adel_self]
    · simp [getCacheUserByEmail, invalidateCacheUser, hr]
  · rw [hsdb]
    exact hexist

/-- Witness for C3: soft-deleting a concrete user in a three-row store. -/
theorem c3_witness :
    (RepoInv stMix ∧ uA ∈ stMix.db.rows ∧ uA.deleted_at = none) ∧
    ((UserRepository.softDelete stMix uA.id 4).1 = Except.ok () ∧
    (UserRepository.findById (UserRepository.softDelete stMix uA.id 4).2 uA.id).1 =
      Except.ok none ∧
    (UserRepository.findByEmail (UserRepository.softDelete stMix uA.id 4).2 uA.email).1 =
      Except.ok none ∧
    (∀ p ws n, (UserRepository.findMany (UserRepository.softDelete stMix uA.id 4).2 p).1 =
      Except.ok (ws, n) → ∀ w ∈ ws, w.id ≠ uA.id) ∧
    getCacheUserById (UserRepository.softDelete stMix uA.id 4).2 uA.id = none ∧
    getCacheUserByEmail (UserRepository.softDelete stMix uA.id 4).2 uA.email = none ∧
    (∃ w ∈ (UserRepository.softDelete stMix uA.id 4).2.db.rows,
      w.id = uA.id ∧ w.deleted_at = some 4)) := by
  have hinv : RepoInv stMix := repoInv_emptyCache ⟨by decide, by decide⟩ true
  exact ⟨⟨hinv, by decide, by decide⟩,
    c3_softDelete_row_invisible_but_retained hinv 4 (by decide) (by decide)⟩

/-- C4: when `update(id, {email: new})` succeeds on an existing non-deleted
row whose email was `old` (with non-empty `new ≠ old`, as the validator
guarantees), `findByEmail(old)` afterwards returns null while
`findByEmail(new)` returns the updated row, and no cache entry keyed by the
old email survives (both keys of the pre-update row were invalidated before
the store write and the cache was re-populated under the new key set
afterwards). -/
theorem c4_update_email_rekeys_lookups
    {st : RepoState} {w u2 : User} {newE : String} (h : RepoInv st)
    (i : Nat) (d : UpdateUserRequest) (t : Nat)
    (hfind : dbFindById st.db i = some w)
    (hd : d.email = some newE) (hne0 : newE ≠ "") (hne : newE ≠ w.email)
    (hok : (UserRepository.update st i d t).1 = Except.ok u2) :
    (UserRepository.findByEmail (UserRepository.update st i d t).2 w.email).1 =
      Except.ok none ∧
    (UserRepository.findByEmail (UserRepository.update st i d t).2 newE).1 =
      Except.ok (some u2) ∧
    getCacheUserByEmail (UserRepository.update st i d t).2 w.email = none ∧
    u2.email = newE := by
  obtain ⟨c1, c2, c3, c4⟩ := update_char h i d t
  rw [c1] at hok
  unfold pUpdate at hok
  rw [hfind] at hok
  simp only [hd] at hok
  rw [if_pos (⟨hne0, hne⟩ : newE ≠ "" ∧ newE ≠ w.email)] at hok
  cases hemail : dbFindByEmail st.db newE with
  | some x =>
    rw [hemail] at hok
    simp at hok
  | none =>
    rw [hemail] at hok
    rw [if_neg (by simp : ¬ ((none : Option User).isSome = true))] at hok
    cases hupd : dbUpdate st.db i d t with
    | error err =>
      rw [hupd] at hok
      simp at hok
    | ok pr =>
      obtain ⟨u2x, db2⟩ := pr
      rw [hupd] at hok
      simp at hok
      rw [hok] at hupd
      obtain ⟨hu2, hrows, hnext, hnoany, hwf2, hu2id, hu2del, hfind2, hfindem2,
        hpresid, hpresem, hnonold⟩ := dbUpdate_ok h.1 hfind hupd
      have hu2em : u2.email = newE := by
        rw [hu2]
        simp [applyPatch, hd]
      have hs2db : (UserRepository.update st i d t).2.db = db2 := by
        rw [c2]
        unfold pUpdate
        rw [hfind]
        simp only [hd]
        rw [if_pos (⟨hne0, hne⟩ : newE ≠ "" ∧ newE ≠ w.email), hemail,
          if_neg (by simp : ¬ ((none : Option User).isSome = true)), hupd]
      have hnone : dbFindByEmail db2 w.email = none := by
        apply hnonold
        rw [hu2em]
        exact hne
      refine ⟨?_, ?_, ?_, hu2em⟩
      · obtain ⟨f1, _, _, _⟩ := findByEmail_char c4 w.email
        rw [f1, hs2db, hnone]
      · obtain ⟨f1, _, _, _⟩ := findByEmail_char c4 newE
        rw [f1, hs2db, ← hu2em, hfindem2]
      · obtain ⟨h1, h2, h3, h4⟩ := findById_char h i
        rw [hfind] at h1
        obtain ⟨g1, g2, g3, g4⟩ := findByEmail_char h4 newE
        rw [h2, hemail] at g1
        have hwem : u2.email ≠ w.email := by
          rw [hu2em]
          exact hne
        simp only [UserRepository.update, h1, hd,
          if_pos (⟨hne0, hne⟩ : newE ≠ "" ∧ newE ≠ w.email), g1,
          invalidateCacheUser_db, g2, h2, hupd]
        by_cases hr : (UserRepository.findByEmail (UserRepository.findById st i).2 newE).2.cacheReady
        · simp [getCacheUserByEmail, setCacheUser, invalidateCacheUser, hr, aset, alookup, hwem]
          rw [alookup_adel_ne _ _ _ (fun hc => hwem hc.symm), alookup_adel_self]
        · simp [getCacheUserByEmail, setCacheUser, invalidateCacheUser, hr]

/-- Witness for C4: changing the email of a concrete user. -/
theorem c4_witness :
    (RepoInv stMix ∧ dbFindById stMix.db 0 = some uA ∧ patchEmail.email = some "ada2@x.io" ∧
      "ada2@x.io" ≠ "" ∧ "ada2@x.io" ≠ uA.email ∧
      (UserRepository.update stMix 0 patchEmail 5).1 = Except.ok
        ({ id := 0, first_name := "Ada", last_name := "Lovelace", email := "ada2@x.io",
           password := "$2b$12$adahash", is_active := true, created_at := 0, updated_at := 5,
           deleted_at := none } : User)) ∧
    (UserRepository.findByEmail (UserRepository.update stMix 0 patchEmail 5).2 uA.email).1 =
      Except.ok none ∧
    (UserRepository.findByEmail (UserRepository.update stMix 0 patchEmail 5).2 "ada2@x.io").1 =
      Except.ok (some
        ({ id := 0, first_name := "Ada", last_name := "Lovelace", email := "ada2@x.io",
           password := "$2b$12$adahash", is_active := true, created_at := 0, updated_at := 5,
           deleted_at := none } : User)) ∧
    getCacheUserByEmail (UserRepository.update stMix 0 patchEmail 5).2 uA.email = none ∧
    ({ id := 0, first_name := "Ada", last_name := "Lovelace", email := "ada2@x.io",
       password := "$2b$12$adahash", is_active := true, created_at := 0, updated_at := 5,
       deleted_at := none } : User).email = "ada2@x.io" := by
  have hinv : RepoInv stMix := repoInv_emptyCache ⟨by decide, by decide⟩ true
  exact ⟨⟨hinv, by decide, by decide, by decide, by decide, by decide⟩,
    c4_update_email_rekeys_lookups hinv 0 patchEmail 5 (by decide) (by decide) (by decide)
      (by decide) (by decide)⟩

/-- C5: running any sequence of repository operations with the cache store
unavailable (the client is not ready, so every cache read is a miss and
every cache write or delete a no-op, failures swallowed) yields exactly the
same operation results — values and error kinds — and the same final
Primary Store contents as running it with the cache available; cache
unavailability never surfaces as an operation failure. -/
theorem c5_cache_unavailability_is_observationally_equivalent
    (ops : List Op) (db : DB) (c2 : Cache) (hwf : WF db) :
    (runOps { db := db, cache := Cache.empty, cacheReady := true } ops).1 =
      (runOps { db := db, cache := c2, cacheReady := false } ops).1 ∧
    (runOps { db := db, cache := Cache.empty, cacheReady := true } ops).2.db =
      (runOps { db := db, cache := c2, cacheReady := false } ops).2.db := by
  apply runOps_sim
  · exact ⟨hwf, fun _ => cacheOk_empty db⟩
  · exact ⟨hwf, fun hc => Bool.noConfusion hc⟩
  · rfl

/-- Witness for C5 on a concrete operation sequence. -/
theorem c5_witness :
    WF stA.db ∧
    ((runOps { db := stA.db, cache := Cache.empty, cacheReady := true } opsDemo).1 =
      (runOps { db := stA.db, cache := stA.cache, cacheReady := false } opsDemo).1 ∧
    (runOps { db := stA.db, cache := Cache.empty, cacheReady := true } opsDemo).2.db =
      (runOps { db := stA.db, cache := stA.cache, cacheReady := false } opsDemo).2.db) :=
  ⟨⟨by decide, by decide⟩,
    c5_cache_unavailability_is_observationally_equivalent opsDemo stA.db stA.cache
      ⟨by decide, by decide⟩⟩

/-- C6: for every `findMany` call, with or without `q`: the call neither
reads nor writes the cache (its state is untouched and its result is
independent of cache contents and readiness); every returned row is a
non-deleted store row; the total counts exactly the rows passing the row
filter, which admits no soft-deleted row; and when a non-empty `q` is
given, every returned row matches `q` case-insensitively in first name,
last name or email, and the matched set is exactly the filter of the
store. -/
theorem c6_findMany_filters_and_bypasses_cache
    (st : RepoState) (p : UserSearchParams) :
    (UserRepository.findMany st p).2 = st ∧
    (∀ c2 b2, (UserRepository.findMany { db := st.db, cache := c2, cacheReady := b2 } p).1 =
      (UserRepository.findMany st p).1) ∧
    (∀ ws n, (UserRepository.findMany st p).1 = Except.ok (ws, n) →
      (∀ w ∈ ws, w ∈ st.db.rows ∧ w.deleted_at = none) ∧
      n = st.db.rows.countP (UserRepository.userListed p.q) ∧
      (∀ w ∈ st.db.rows, UserRepository.userListed p.q w = true → w.deleted_at = none) ∧
      (∀ q, p.q = some q → q ≠ "" →
        (∀ w ∈ ws, (UserRepository.ciContains w.first_name q ||
          UserRepository.ciContains w.last_name q ||
          UserRepository.ciContains w.email q) = true) ∧
        (∀ w, w ∈ UserRepository.sortedMatchedRows st.db p ↔
          w ∈ st.db.rows ∧ UserRepository.userListed (some q) w = true))) := by
  refine ⟨rfl, fun c2 b2 => rfl, ?_⟩
  intro ws n heq
  simp only [UserRepository.findMany] at heq
  have hws : ws = ((UserRepository.sortedMatchedRows st.db p).drop
      ((p.page.getD 1 - 1) * (p.limit.getD 10))).take (p.limit.getD 10) := by
    have := Except.ok.inj heq
    exact (Prod.mk.injEq _ _ _ _ ▸ this).1.symm
  have hn : n = (UserRepository.matchedRows st.db p).length := by
    have := Except.ok.inj heq
    exact (Prod.mk.injEq _ _ _ _ ▸ this).2.symm
  have hmem : ∀ w ∈ ws, w ∈ st.db.rows ∧ UserRepository.userListed p.q w = true := by
    intro w hw
    rw [hws] at hw
    have hw2 : w ∈ UserRepository.sortedMatchedRows st.db p :=
      List.drop_subset _ _ (List.take_subset _ _ hw)
    have hw3 : w ∈ UserRepository.matchedRows st.db p := (mem_sortByLe _ _ _).mp hw2
    exact List.mem_filter.mp hw3
  refine ⟨?_, ?_, ?_, ?_⟩
  · intro w hw
    obtain ⟨hm, hl⟩ := hmem w hw
    refine ⟨hm, ?_⟩
    simp [UserRepository.userListed] at hl
    exact hl.1
  · rw [hn, List.countP_eq_length_filter]
    rfl
  · intro w hw hl
    simp [UserRepository.userListed] at hl
    exact hl.1
  · intro q hq hne
    constructor
    · intro w hw
      obtain ⟨hm, hl⟩ := hmem w hw
      rw [hq] at hl
      simp only [UserRepository.userListed, Bool.and_eq_true] at hl
      simpa [UserRepository.matchesQ, hne] using hl.2
    · intro w
      unfold UserRepository.sortedMatchedRows
      rw [mem_sortByLe]
      unfold UserRepository.matchedRows
      rw [hq, List.mem_filter]

/-- Witness for C6, applied both with a non-empty `q` (pQ) and with `q`
absent (p25), on a store holding active and soft-deleted rows. -/
theorem c6_witness :
    ((UserRepository.findMany stMix pQ).2 = stMix ∧
    (∀ c2 b2, (UserRepository.findMany { db := stMix.db, cache := c2, cacheReady := b2 } pQ).1 =
      (UserRepository.findMany stMix pQ).1) ∧
    (∀ ws n, (UserRepository.findMany stMix pQ).1 = Except.ok (ws, n) →
      (∀ w ∈ ws, w ∈ stMix.db.rows ∧ w.deleted_at = none) ∧
      n = stMix.db.rows.countP (UserRepository.userListed pQ.q) ∧
      (∀ w ∈ stMix.db.rows, UserRepository.userListed pQ.q w = true → w.deleted_at = none) ∧
      (∀ q, pQ.q = some q → q ≠ "" →
        (∀ w ∈ ws, (UserRepository.ciContains w.first_name q ||
          UserRepository.ciContains w.last_name q ||
          UserRepository.ciContains w.email q) = true) ∧
        (∀ w, w ∈ UserRepository.sortedMatchedRows stMix.db pQ ↔
          w ∈ stMix.db.rows ∧ UserRepository.userListed (some q) w = true)))) ∧
    ((UserRepository.findMany stMix p25).2 = stMix ∧
    (∀ c2 b2, (UserRepository.findMany { db := stMix.db, cache := c2, cacheReady := b2 } p25).1 =
      (UserRepository.findMany stMix p25).1) ∧
    (∀ ws n, (UserRepository.findMany stMix p25).1 = Except.ok (ws, n) →
      (∀ w ∈ ws, w ∈ stMix.db.rows ∧ w.deleted_at = none) ∧
      n = stMix.db.rows.countP (UserRepository.userListed p25.q) ∧
      (∀ w ∈ stMix.db.rows, UserRepository.userListed p25.q w = true → w.deleted_at = none) ∧
      (∀ q, p25.q = some q → q ≠ "" →
        (∀ w ∈ ws, (UserRepository.ciContains w.first_name q ||
          UserRepository.ciContains w.last_name q ||
          UserRepository.ciContains w.email q) = true) ∧
        (∀ w, w ∈ UserRepository.sortedMatchedRows stMix.db p25 ↔
          w ∈ stMix.db.rows ∧ UserRepository.userListed (some q) w = true)))) :=
  ⟨c6_findMany_filters_and_bypasses_cache stMix pQ,
   c6_findMany_filters_and_bypasses_cache stMix p25⟩

/-- C7: for `page ≥ 1` and `1 ≤ limit ≤ 100`, `findMany` skips exactly
`(page-1)*limit` rows of the sorted matched set and takes at most `limit`
of them, returns the unpaginated total, and the Service computes
`total_pages = ceil(total/limit)`, `has_next = page < total_pages`,
`has_prev = page > 1`; the sorted set has exactly the matched rows, and
`total_pages` is a genuine ceiling: `total ≤ total_pages * limit <
total + limit`. -/
theorem c7_pagination_metadata
    (st : RepoState) (p : UserSearchParams) (page limit : Nat)
    (hp : p.page = some page) (hl : p.limit = some limit)
    (hp1 : 1 ≤ page) (hl1 : 1 ≤ limit) (hl2 : limit ≤ 100) :
    UserService.getUsers st p =
      (Except.ok {
        data := (((UserRepository.sortedMatchedRows st.db p).drop ((page - 1) * limit)).take
          limit).map mapUserToResponse
        pagination := {
          page := page
          limit := limit
          total := (UserRepository.matchedRows st.db p).length
          total_pages := ceilDiv (UserRepository.matchedRows st.db p).length limit
          has_next := decide (page < ceilDiv (UserRepository.matchedRows st.db p).length limit)
          has_prev := decide (1 < page) } }, st) ∧
    (((UserRepository.sortedMatchedRows st.db p).drop ((page - 1) * limit)).take
      limit).length ≤ limit ∧
    (UserRepository.sortedMatchedRows st.db p).length =
      (UserRepository.matchedRows st.db p).length ∧
    (UserRepository.matchedRows st.db p).length ≤
      ceilDiv (UserRepository.matchedRows st.db p).length limit * limit ∧
    ceilDiv (UserRepository.matchedRows st.db p).length limit * limit <
      (UserRepository.matchedRows st.db p).length + limit := by
  refine ⟨?_, ?_, ?_, ?_, ?_⟩
  · simp [UserService.getUsers, UserRepository.findMany, hp, hl]
  · rw [List.length_take]
    exact Nat.min_le_left _ _
  · exact length_sortByLe _ _
  · have hd := Nat.div_add_mod ((UserRepository.matchedRows st.db p).length + limit - 1) limit
    rw [Nat.mul_comm] at hd
    have hm : ((UserRepository.matchedRows st.db p).length + limit - 1) % limit < limit :=
      Nat.mod_lt _ (by omega)
    unfold ceilDiv
    omega
  · have hd := Nat.div_add_mod ((UserRepository.matchedRows st.db p).length + limit - 1) limit
    rw [Nat.mul_comm] at hd
    have hm : ((UserRepository.matchedRows st.db p).length + limit - 1) % limit < limit :=
      Nat.mod_lt _ (by omega)
    unfold ceilDiv
    omega

/-- Witness for C7: 12 matching rows, page 2, limit 5 yields total_pages 3,
has_next, has_prev, and rows 6 through 10 of the sort order. -/
theorem c7_witness :
    (p25.page = some 2 ∧ p25.limit = some 5 ∧ 1 ≤ 2 ∧ 1 ≤ 5 ∧ 5 ≤ 100) ∧
    (UserService.getUsers st12 p25 =
      (Except.ok {
        data := (((UserRepository.sortedMatchedRows st12.db p25).drop ((2 - 1) * 5)).take
          5).map mapUserToResponse
        pagination := {
          page := 2
          limit := 5
          total := (UserRepository.matchedRows st12.db p25).length
          total_pages := ceilDiv (UserRepository.matchedRows st12.db p25).length 5
          has_next := decide (2 < ceilDiv (UserRepository.matchedRows st12.db p25).length 5)
          has_prev := decide (1 < 2) } }, st12) ∧
    (((UserRepository.sortedMatchedRows st12.db p25).drop ((2 - 1) * 5)).take 5).length ≤ 5 ∧
    (UserRepository.sortedMatchedRows st12.db p25).length =
      (UserRepository.matchedRows st12.db p25).length ∧
    (UserRepository.matchedRows st12.db p25).length ≤
      ceilDiv (UserRepository.matchedRows st12.db p25).length 5 * 5 ∧
    ceilDiv (UserRepository.matchedRows st12.db p25).length 5 * 5 <
      (UserRepository.matchedRows st12.db p25).length + 5) ∧
    (UserRepository.matchedRows st12.db p25).length = 12 ∧
    ceilDiv 12 5 = 3 ∧
    decide (2 < ceilDiv 12 5) = true ∧
    decide (1 < 2) = true ∧
    ((UserRepository.sortedMatchedRows st12.db p25).drop ((2 - 1) * 5)).take 5 =
      [mkU 5, mkU 6, mkU 7, mkU 8, mkU 9] := by
  refine ⟨⟨rfl, rfl, by decide, by decide, by decide⟩, ?_, by decide, by decide, by decide,
    by decide, by decide⟩
  exact c7_pagination_metadata st12 p25 2 5 rfl rfl (by decide) (by decide) (by decide)

/-- C8 counterexample: activating the same user twice at later wall-clock
times does not leave the state unchanged — the second call re-stamps
`updated_at` (the store client refreshes it on every update), so both the
stored state and the returned representation differ from those after the
first call, contradicting idempotence "including updated_at". -/
theorem c8_counterexample :
    (UserService.activateUser (UserService.activateUser stA 0 1).2 0 2).2 ≠
      (UserService.activateUser stA 0 1).2 ∧
    (UserService.activateUser (UserService.activateUser stA 0 1).2 0 2).1 ≠
      (UserService.activateUser stA 0 1).1 := by
  refine ⟨by decide, by decide⟩

/-- Repeating `update(id, {is_active: b})` is idempotent up to the
`updated_at` re-stamp: when the first call succeeds with row response `r1`
(whose `is_active` is `b`), the second call succeeds and returns `r1` with
only `updated_at` moved to the second timestamp. -/
theorem update_is_active_idempotent_except_updated_at
    {st : RepoState} {r1 : UserResponse} (h : RepoInv st) (b : Bool) (i : Nat) (t1 t2 : Nat)
    (h1 : ((UserRepository.update st i
        { first_name := none, last_name := none, email := none, is_active := some b }
        t1).1).map mapUserToResponse = Except.ok r1) :
    ((UserRepository.update (UserRepository.update st i
        { first_name := none, last_name := none, email := none, is_active := some b } t1).2 i
        { first_name := none, last_name := none, email := none, is_active := some b }
        t2).1).map mapUserToResponse = Except.ok { r1 with updated_at := t2 } ∧
    r1.is_active = b := by
  cases hres : (UserRepository.update st i
      { first_name := none, last_name := none, email := none, is_active := some b } t1).1 with
  | error e =>
    rw [hres] at h1
    simp [Except.map] at h1
  | ok u1 =>
    rw [hres] at h1
    simp [Except.map] at h1
    have hr1 : r1 = mapUserToResponse u1 := h1.symm
    obtain ⟨c1, c2, c3, c4⟩ := update_char h i
      { first_name := none, last_name := none, email := none, is_active := some b } t1
    rw [c1] at hres
    unfold pUpdate at hres
    cases hfw : dbFindById st.db i with
    | none =>
      rw [hfw] at hres
      simp at hres
    | some w =>
      rw [hfw] at hres
      simp only [] at hres
      cases hupd : dbUpdate st.db i
          { first_name := none, last_name := none, email := none, is_active := some b } t1 with
      | error e =>
        rw [hupd] at hres
        simp at hres
      | ok pr =>
        obtain ⟨u1x, db2⟩ := pr
        rw [hupd] at hres
        simp at hres
        rw [hres] at hupd
        obtain ⟨hu1, hrows, hnext, hnoany, hwf2, hu1id, hu1del, hfind2, hfindem2,
          hpresid, hpresem, hnonold⟩ := dbUpdate_ok h.1 hfw hupd
        have hact : u1.is_active = b := by
          rw [hu1]
          rfl
        have hs1db : (UserRepository.update st i
            { first_name := none, last_name := none, email := none, is_active := some b }
            t1).2.db = db2 := by
          rw [c2]
          unfold pUpdate
          rw [hfw]
          simp [hupd]
        have hrow2 : db2.rows.find? (fun v => v.id == i) = some u1 :=
          rowById_of_findById hwf2 hfind2
        have hemkeep : (applyPatch u1
            { first_name := none, last_name := none, email := none, is_active := some b }
            t2).email = u1.email := rfl
        have hany2 : (db2.rows.any (fun v => v.id != i && v.email == (applyPatch u1
            { first_name := none, last_name := none, email := none, is_active := some b }
            t2).email)) = false := by
          apply Bool.eq_false_iff.mpr
          intro hc
          obtain ⟨v, hv, hvc⟩ := List.any_eq_true.mp hc
          rw [hemkeep] at hvc
          simp at hvc
          rw [hrows] at hv
          obtain ⟨vv, hvv, hfvv⟩ := List.mem_map.mp hv
          by_cases hvvi : vv.id = i
          · have hvu : v = u1 := by
              rw [← hfvv]
              simp [hvvi]
            rw [hvu] at hvc
            exact hvc.1 hu1id
          · have hveq : v = vv := by
              rw [← hfvv]
              simp [hvvi]
            rw [hveq] at hvc
            exact hnoany vv hvv hvvi hvc.2
        have hupd2 : dbUpdate db2 i
            { first_name := none, last_name := none, email := none, is_active := some b } t2 =
            Except.ok (applyPatch u1
              { first_name := none, last_name := none, email := none, is_active := some b } t2,
              { db2 with rows := db2.rows.map (fun v => if v.id == i then applyPatch u1 { first_name := none, last_name := none, email := none, is_active := some b } t2 else v) }) := by
          unfold dbUpdate
          rw [hrow2]
          simp [hany2]
        obtain ⟨e1, e2, e3, e4⟩ := update_char c4 i
          { first_name := none, last_name := none, email := none, is_active := some b } t2
        rw [hs1db] at e1
        have hp2 : (pUpdate db2 i
            { first_name := none, last_name := none, email := none, is_active := some b }
            t2).1 = Except.ok (applyPatch u1
              { first_name := none, last_name := none, email := none, is_active := some b }
              t2) := by
          unfold pUpdate
          rw [hfind2]
          simp [hupd2]
        refine ⟨?_, ?_⟩
        · rw [e1, hp2]
          simp [Except.map]
          rw [hr1]
          rcases u1 with ⟨uid, ufn, uln, uem, upw, uac, uca, uua, uda⟩
          simp [mapUserToResponse, applyPatch] at hact ⊢
          simp [hact]
        · rw [hr1]
          exact hact

/-- C8 (amended): `activateUser` and `deactivateUser` are sugar for
`update(id, {is_active: true})` and `update(id, {is_active: false})`
respectively, and each is idempotent on every field except `updated_at`:
when the first call succeeds with response `r` (whose `is_active` is the
written value), a second call succeeds and returns exactly `r` with
`updated_at` re-stamped to the second call time. -/
theorem c8_amended_idempotent_except_updated_at
    {st st2 : RepoState} {r1 r2 : UserResponse} (h : RepoInv st) (h2 : RepoInv st2)
    (i i2 : Nat) (t1 t2 s1 s2 : Nat)
    (ha : (UserService.activateUser st i t1).1 = Except.ok r1)
    (hd : (UserService.deactivateUser st2 i2 s1).1 = Except.ok r2) :
    (UserService.activateUser (UserService.activateUser st i t1).2 i t2).1 =
      Except.ok { r1 with updated_at := t2 } ∧
    r1.is_active = true ∧
    (UserService.deactivateUser (UserService.deactivateUser st2 i2 s1).2 i2 s2).1 =
      Except.ok { r2 with updated_at := s2 } ∧
    r2.is_active = false ∧
    (∀ st3 j t3, UserService.activateUser st3 j t3 =
      (((UserRepository.update st3 j activePatch t3).1).map mapUserToResponse,
       (UserRepository.update st3 j activePatch t3).2)) ∧
    (∀ st3 j t3, UserService.deactivateUser st3 j t3 =
      (((UserRepository.update st3 j deactivePatch t3).1).map mapUserToResponse,
       (UserRepository.update st3 j deactivePatch t3).2)) := by
  obtain ⟨ga1, ga2⟩ := update_is_active_idempotent_except_updated_at h true i t1 t2 ha
  obtain ⟨gd1, gd2⟩ := update_is_active_idempotent_except_updated_at h2 false i2 s1 s2 hd
  exact ⟨ga1, ga2, gd1, gd2, fun st3 j t3 => rfl, fun st3 j t3 => rfl⟩

/-- Witness for C8 (amended): a concrete user activated at times 1 and 2
and deactivated at times 3 and 4. -/
theorem c8_amended_witness :
    (RepoInv stA ∧ (UserService.activateUser stA 0 1).1 = Except.ok ({ id := 0, first_name := "Ada", last_name := "Lovelace", email := "ada@x.io", is_active := true, created_at := 0, updated_at := 1 } : UserResponse) ∧
      (UserService.deactivateUser stA 0 3).1 = Except.ok ({ id := 0, first_name := "Ada", last_name := "Lovelace", email := "ada@x.io", is_active := false, created_at := 0, updated_at := 3 } : UserResponse)) ∧
    ((UserService.activateUser (UserService.activateUser stA 0 1).2 0 2).1 =
      Except.ok ({ id := 0, first_name := "Ada", last_name := "Lovelace", email := "ada@x.io", is_active := true, created_at := 0, updated_at := 2 } : UserResponse) ∧
    ({ id := 0, first_name := "Ada", last_name := "Lovelace", email := "ada@x.io", is_active := true, created_at := 0, updated_at := 1 } : UserResponse).is_active = true ∧
    (UserService.deactivateUser (UserService.deactivateUser stA 0 3).2 0 4).1 =
      Except.ok ({ id := 0, first_name := "Ada", last_name := "Lovelace", email := "ada@x.io", is_active := false, created_at := 0, updated_at := 4 } : UserResponse) ∧
    ({ id := 0, first_name := "Ada", last_name := "Lovelace", email := "ada@x.io", is_active := false, created_at := 0, updated_at := 3 } : UserResponse).is_active = false ∧
    (∀ st3 j t3, UserService.activateUser st3 j t3 =
      (((UserRepository.update st3 j activePatch t3).1).map mapUserToResponse,
       (UserRepository.update st3 j activePatch t3).2)) ∧
    (∀ st3 j t3, UserService.deactivateUser st3 j t3 =
      (((UserRepository.update st3 j deactivePatch t3).1).map mapUserToResponse,
       (UserRepository.update st3 j deactivePatch t3).2))) := by
  have hinv : RepoInv stA := repoInv_emptyCache ⟨by decide, by decide⟩ true
  have ha : (UserService.activateUser stA 0 1).1 = Except.ok ({ id := 0, first_name := "Ada", last_name := "Lovelace", email := "ada@x.io", is_active := true, created_at := 0, updated_at := 1 } : UserResponse) := by decide
  have hd : (UserService.deactivateUser stA 0 3).1 = Except.ok ({ id := 0, first_name := "Ada", last_name := "Lovelace", email := "ada@x.io", is_active := false, created_at := 0, updated_at := 3 } : UserResponse) := by decide
  exact ⟨⟨hinv, ha, hd⟩, c8_amended_idempotent_except_updated_at hinv hinv 0 0 1 2 3 4 ha hd⟩

/-- C9: every user representation handed back by any Service operation
(`createUser`, `getUserById`, `getUserByEmail`, `getUsers`, `updateUser`,
`activateUser`, `deactivateUser`) carries neither a `password` nor a
`deleted_at` field: its field list is exactly the user fields with those
two removed, as produced by the destructuring in `mapUserToResponse`. -/
theorem c9_no_password_or_deleted_at_in_responses
    (op : SvcOp) (st : RepoState) (r : UserResponse)
    (hr : r ∈ ((runSvcOp st op).1).userReps) :
    ("password" ∉ (UserResponse.toFields r).map Prod.fst) ∧
    ("deleted_at" ∉ (UserResponse.toFields r).map Prod.fst) ∧
    (∀ u : User, (UserResponse.toFields (mapUserToResponse u)) =
      (User.toFields u).filter
        (fun kv => !(kv.1 == "password" || kv.1 == "deleted_at"))) := by
  have hkeys : (UserResponse.toFields r).map Prod.fst =
      ["id", "first_name", "last_name", "email", "is_active", "created_at", "updated_at"] := rfl
  refine ⟨?_, ?_, fun u => rfl⟩
  · rw [hkeys]
    decide
  · rw [hkeys]
    decide

/-- Witness for C9 on a concrete getUserById call. -/
theorem c9_witness :
    (mapUserToResponse uA ∈
      ((runSvcOp stA (SvcOp.getUserByIdOp 0)).1).userReps) ∧
    ("password" ∉ (UserResponse.toFields (mapUserToResponse uA)).map Prod.fst) ∧
    ("deleted_at" ∉ (UserResponse.toFields (mapUserToResponse uA)).map Prod.fst) ∧
    (∀ u : User, (UserResponse.toFields (mapUserToResponse u)) =
      (User.toFields u).filter
        (fun kv => !(kv.1 == "password" || kv.1 == "deleted_at"))) := by
  refine ⟨by decide, ?_⟩
  exact c9_no_password_or_deleted_at_in_responses (SvcOp.getUserByIdOp 0) stA
    (mapUserToResponse uA) (by decide)
